import Mathlib

/-!
Verification of the war lifecycle engine of the TribeWarSystem plugin
(src/TribeWarSystem/TribeWarSystem.cpp).

The development is a shallow embedding of the core engine: the war record
table, the derived tribe index, the phase function, the command operations
(declare, request-cancel, accept-cancel), the timer tick, the combat
arbiter, and the debounced persistence layer.  All C++ `int64_t` values are
modelled as `Int`; the canonicalization of tribe ids to unsigned 32-bit
values is modelled with an explicit `% 2^32`.  External collaborators
(alliance queries, roster queries, the messaging transport) are modelled as
oracle parameters.  Outbound messages are modelled as tagged notes; the
tag stands for the message text of the source, whose exact wording is
irrelevant to the verified properties.
-/

namespace TribeWar

/-- CanonicalTribeId (TribeWarSystem.cpp:577): the raw id is cast to
`int32_t` and then reinterpreted as `uint32_t`; mathematically this is
reduction modulo 2^32 into the range [0, 2^32). -/
def CanonicalTribeId (raw_id : Int) : Int :=
  raw_id % (2 ^ 32)

/-- Truncation of an `int64_t` to a signed `int32_t`, as performed by
`static_cast<int>` before calling the external alliance query. -/
def toInt32 (x : Int) : Int :=
  (x + 2 ^ 31) % (2 ^ 32) - 2 ^ 31

/-- WarRecord (TribeWarSystem.cpp:96): one declared conflict between two
tribes, with the same fields and the same zero/false defaults. -/
structure WarRecord where
  war_id : Int := 0
  tribe_a : Int := 0
  tribe_b : Int := 0
  declared_at : Int := 0
  start_at : Int := 0
  ended_at : Int := 0
  cooldown_end_a : Int := 0
  cooldown_end_b : Int := 0
  cancel_requested_by_a : Bool := false
  cancel_requested_by_b : Bool := false
  start_notified : Bool := false
  cooldown_notified : Bool := false
  deriving Repr, DecidableEq

/-- WarPhase (TribeWarSystem.cpp:112). -/
inductive WarPhase where
  | None
  | Pending
  | Active
  | Cooldown
  deriving Repr, DecidableEq

/-- GetPhase (TribeWarSystem.cpp:586): the derived lifecycle phase of a
record at a given time.  It is a pure function of the record and the
clock; nothing is stored. -/
def GetPhase (war : WarRecord) (now : Int) : WarPhase :=
  if war.war_id = 0 then WarPhase.None
  else if war.ended_at = 0 then
    if now < war.start_at then WarPhase.Pending else WarPhase.Active
  else if now < war.cooldown_end_a ∨ now < war.cooldown_end_b then WarPhase.Cooldown
  else WarPhase.None

/-- IsActiveWar (TribeWarSystem.cpp:604). -/
def IsActiveWar (war : WarRecord) (now : Int) : Bool :=
  GetPhase war now = WarPhase.Active

/-- A tribe is a belligerent of a record. -/
def belligerent (p : Int) (war : WarRecord) : Prop :=
  p = war.tribe_a ∨ p = war.tribe_b

instance (p : Int) (war : WarRecord) : Decidable (belligerent p war) := by
  unfold belligerent; infer_instance

/-- Association-list read of the tribe index (`tribe_to_war_id` lookups). -/
def idxGet (m : List (Int × Int)) (k : Int) : Option Int :=
  (m.find? (fun kv => kv.1 = k)).map (fun kv => kv.2)

/-- Association-list write of the tribe index (`tribe_to_war_id[k] = v`). -/
def idxSet (m : List (Int × Int)) (k v : Int) : List (Int × Int) :=
  (m.filter (fun kv => kv.1 ≠ k)) ++ [(k, v)]

/-- RebuildTribeIndexLocked (TribeWarSystem.cpp:609): clear the index,
then for every record whose phase at `now` is not `None` map both
belligerents to its war id.  Later records overwrite earlier entries for
the same tribe, as map assignment does in the source. -/
def RebuildTribeIndexLocked (wars : List WarRecord) (now : Int) : List (Int × Int) :=
  wars.foldl
    (fun m war =>
      if GetPhase war now = WarPhase.None then m
      else idxSet (idxSet m war.tribe_a war.war_id) war.tribe_b war.war_id)
    []

/-- The war store: the `wars_by_id` table (a list of records keyed by
their `war_id` field, modelling the map values) together with the derived
`tribe_to_war_id` index and the `next_war_id` counter. -/
structure Store where
  next_war_id : Int := 1
  wars : List WarRecord := []
  index : List (Int × Int) := []
  deriving Repr, DecidableEq

/-- The empty store at plugin start. -/
def emptyStore : Store := {}

/-- GetWarForTribeLocked (TribeWarSystem.cpp:1227): index lookup then
table lookup; no phase filtering and no canonicalization. -/
def GetWarForTribeLocked (s : Store) (tribe_id : Int) : Option WarRecord :=
  match idxGet s.index tribe_id with
  | none => none
  | some war_id => s.wars.find? (fun w => w.war_id = war_id)

/-- GetWarForTribeCopy (TribeWarSystem.cpp:1240): canonicalizes the id,
performs the locked lookup and hides records whose phase at `now` is
`None` (the source reads the clock inside; here the clock is passed in). -/
def GetWarForTribeCopy (s : Store) (tribe_id now : Int) : Option WarRecord :=
  match GetWarForTribeLocked s (CanonicalTribeId tribe_id) with
  | none => none
  | some war => if GetPhase war now = WarPhase.None then none else some war

/-- IsTribeInCooldown (TribeWarSystem.cpp:1298). -/
def IsTribeInCooldown (s : Store) (tribe_id now : Int) : Bool :=
  let tid := CanonicalTribeId tribe_id
  match GetWarForTribeLocked s tid with
  | none => false
  | some war =>
    if war.ended_at = 0 then false
    else if GetPhase war now ≠ WarPhase.Cooldown then false
    else if tid = war.tribe_a then decide (now < war.cooldown_end_a)
    else if tid = war.tribe_b then decide (now < war.cooldown_end_b)
    else false

/-- The configuration fields consumed by the engine core
(struct Config in TribeWarSystem.cpp; only the fields the engine reads).
The structure damage multiplier is a float in the source; it is only ever
passed through unmodified, so it is modelled as a rational. -/
structure Config where
  war_delay_seconds : Int := 24 * 60 * 60
  cooldown_seconds : Int := 24 * 60 * 60
  structure_damage_multiplier : Rat := 2
  self_test : Bool := false
  self_test_tribe_a : Int := 111111
  self_test_tribe_b : Int := 222222
  self_test_active_seconds : Int := 15

/-- Oracles for the external collaborators consulted by the command path:
the server status query, the alliance query of the game mode
(`AreTribesAllied`, fed truncated 32-bit ids) and the roster query
`IsTribeLeaderOrAdminOnline`. -/
structure Env where
  serverReady : Bool
  allied : Int → Int → Bool
  leaderOnline : Int → Bool

/-- Tags standing for the outbound message texts of the source. -/
inductive Msg where
  | youDeclared (target delay : Int)
  | declaredOnYou (source delay : Int)
  | cancelIncoming
  | cancelSent
  | warCanceled (cooldown : Int)
  | warStarted
  | cooldownEnded
  deriving Repr, DecidableEq

/-- One buffered outbound message (PendingNotification without styling,
which the verified properties never inspect). -/
structure Note where
  side_tribe_id : Int
  msg : Msg
  deriving Repr, DecidableEq

/-- Tags standing for the rejection reason strings of IsWarAllowed. -/
inductive WarDeny where
  | noTribe
  | selfWar
  | allied
  | busy
  | leaderOffline
  | cooldown
  deriving Repr, DecidableEq

/-- IsWarAllowed (TribeWarSystem.cpp:1344): eligibility of a declaration,
with the checks in source order.  `WarDeny.busy` stands for the reason
string of the check at line 1370 (an existing war or cooldown record). -/
def IsWarAllowed (env : Env) (s : Store) (tribe_a tribe_b now : Int) :
    Except WarDeny Unit :=
  let a := CanonicalTribeId tribe_a
  let b := CanonicalTribeId tribe_b
  if a = 0 ∨ b = 0 then .error .noTribe
  else if a = b then .error .selfWar
  else if env.serverReady ∧ env.allied (toInt32 a) (toInt32 b) then .error .allied
  else if (GetWarForTribeCopy s a now).isSome ∨ (GetWarForTribeCopy s b now).isSome then
    .error .busy
  else if ¬ env.leaderOnline b then .error .leaderOffline
  else if IsTribeInCooldown s a now ∨ IsTribeInCooldown s b now then .error .cooldown
  else .ok ()

/-- Replace the record stored under a war id (assignment into
`wars_by_id`; with unique ids exactly one record is replaced). -/
def updateWar (wars : List WarRecord) (war_id : Int) (v : WarRecord) : List WarRecord :=
  wars.map (fun w => if w.war_id = war_id then v else w)

/-- Result of a mutating command: the new store, the messages sent, and
whether the operation stored `true` into the `need_save` dirty flag. -/
structure OpResult where
  store : Store
  notes : List Note
  dirty : Bool
  deriving Repr, DecidableEq

/-- DeclareWar (TribeWarSystem.cpp:1391): allocate the next war id,
insert a record declared now and starting after the configured delay,
rebuild the index, mark dirty and notify both sides. -/
def DeclareWar (cfg : Config) (s : Store) (tribe_a tribe_b now : Int) : OpResult :=
  let a := CanonicalTribeId tribe_a
  let b := CanonicalTribeId tribe_b
  let war : WarRecord :=
    { war_id := s.next_war_id
      tribe_a := a
      tribe_b := b
      declared_at := now
      start_at := now + cfg.war_delay_seconds }
  let wars := s.wars ++ [war]
  { store :=
      { next_war_id := s.next_war_id + 1
        wars := wars
        index := RebuildTribeIndexLocked wars now }
    notes :=
      [⟨a, Msg.youDeclared b cfg.war_delay_seconds⟩,
       ⟨b, Msg.declaredOnYou a cfg.war_delay_seconds⟩]
    dirty := true }

/-- RequestCancelWar (TribeWarSystem.cpp:1416): no-op when the tribe has
no indexed war or its war is already ended; otherwise set the calling
side's cancel flag, mark dirty and notify both sides. -/
def RequestCancelWar (s : Store) (tribe_id : Int) : OpResult :=
  let tid := CanonicalTribeId tribe_id
  match GetWarForTribeLocked s tid with
  | none => ⟨s, [], false⟩
  | some war =>
    if war.ended_at ≠ 0 then ⟨s, [], false⟩
    else
      let war1 :=
        if tid = war.tribe_a then { war with cancel_requested_by_a := true }
        else if tid = war.tribe_b then { war with cancel_requested_by_b := true }
        else war
      let other := if tid = war.tribe_a then war.tribe_b else war.tribe_a
      ⟨{ s with wars := updateWar s.wars war.war_id war1 },
       [⟨other, Msg.cancelIncoming⟩, ⟨tid, Msg.cancelSent⟩],
       true⟩

/-- AcceptCancelWar (TribeWarSystem.cpp:1443): set the calling side's
cancel flag; when both flags are then set, finalize the war (ended now,
both cooldowns now plus the configured cooldown, flags and the cooldown
notification guard cleared), rebuild the index, mark dirty and notify
both sides.  When only one flag is set the early return inside the lock
skips the dirty mark and the messages. -/
def AcceptCancelWar (cfg : Config) (s : Store) (tribe_id now : Int) : OpResult :=
  let tid := CanonicalTribeId tribe_id
  match GetWarForTribeLocked s tid with
  | none => ⟨s, [], false⟩
  | some war =>
    if war.ended_at ≠ 0 then ⟨s, [], false⟩
    else
      let war1 :=
        if tid = war.tribe_a then { war with cancel_requested_by_a := true }
        else if tid = war.tribe_b then { war with cancel_requested_by_b := true }
        else war
      if ¬ (war1.cancel_requested_by_a ∧ war1.cancel_requested_by_b) then
        ⟨{ s with wars := updateWar s.wars war.war_id war1 }, [], false⟩
      else
        let war2 :=
          { war1 with
            ended_at := now
            cooldown_end_a := now + cfg.cooldown_seconds
            cooldown_end_b := now + cfg.cooldown_seconds
            cancel_requested_by_a := false
            cancel_requested_by_b := false
            cooldown_notified := false }
        let wars2 := updateWar s.wars war.war_id war2
        ⟨{ next_war_id := s.next_war_id
           wars := wars2
           index := RebuildTribeIndexLocked wars2 now },
         [⟨war2.tribe_a, Msg.warCanceled cfg.cooldown_seconds⟩,
          ⟨war2.tribe_b, Msg.warCanceled cfg.cooldown_seconds⟩],
         true⟩

/-- HasIncomingCancel (TribeWarSystem.cpp:1488): true iff the opposing
side's cancel flag is set; read-only. -/
def HasIncomingCancel (s : Store) (tribe_id : Int) : Bool :=
  let tid := CanonicalTribeId tribe_id
  match GetWarForTribeLocked s tid with
  | none => false
  | some war =>
    if tid = war.tribe_a then war.cancel_requested_by_b
    else if tid = war.tribe_b then war.cancel_requested_by_a
    else false

/-- Outcome of one pass of the ProcessTimers loop body over a single
record: the mutated record, the messages it pushed, whether it set the
`changed` flag, and whether its id was queued for removal. -/
structure TickOut where
  war : WarRecord
  notes : List Note
  changed : Bool
  remove : Bool
  deriving Repr, DecidableEq

/-- Step 1 of the ProcessTimers loop body (TribeWarSystem.cpp:1531-1534):
derive a missing start time from the declaration time, or default it to
the configured delay from now. -/
def normalizeStart (cfg : Config) (now : Int) (w : WarRecord) : WarRecord :=
  let w1 :=
    if w.start_at = 0 ∧ w.declared_at ≠ 0 then
      { w with start_at := w.declared_at + cfg.war_delay_seconds }
    else w
  if w1.start_at = 0 then { w1 with start_at := now + cfg.war_delay_seconds } else w1

/-- The start-notification condition of the tick
(TribeWarSystem.cpp:1535), on the normalized record. -/
def startFire (now : Int) (w : WarRecord) : Bool :=
  w.ended_at = 0 ∧ w.start_at ≤ now ∧ ¬ w.start_notified

/-- Step 2 of the ProcessTimers loop body (TribeWarSystem.cpp:1535-1553):
emit the war-started pair to both sides once and set the guard flag. -/
def tickStart (now : Int) (w : WarRecord) : WarRecord × List Note :=
  if startFire now w then
    ({ w with start_notified := true },
     [⟨w.tribe_a, Msg.warStarted⟩, ⟨w.tribe_b, Msg.warStarted⟩])
  else (w, [])

/-- The self-test forced-end condition (TribeWarSystem.cpp:1556-1559). -/
def endFire (cfg : Config) (now : Int) (w : WarRecord) : Bool :=
  cfg.self_test ∧ w.ended_at = 0 ∧ w.start_notified ∧
    w.start_at + max 1 cfg.self_test_active_seconds ≤ now

/-- Step 3 of the ProcessTimers loop body (TribeWarSystem.cpp:1555-1569):
under the self-test configuration, force an active war to end and start
its cooldowns. -/
def tickSelfTest (cfg : Config) (now : Int) (w : WarRecord) : WarRecord :=
  if endFire cfg now w then
    { w with
      ended_at := now
      cooldown_end_a := now + cfg.cooldown_seconds
      cooldown_end_b := now + cfg.cooldown_seconds
      cooldown_notified := false }
  else w

/-- The cooldown-ended notification condition (TribeWarSystem.cpp:1571-1573). -/
def cdFire (now : Int) (w : WarRecord) : Bool :=
  w.ended_at ≠ 0 ∧ ¬ w.cooldown_notified ∧
    w.cooldown_end_a ≤ now ∧ w.cooldown_end_b ≤ now

/-- Step 4 of the ProcessTimers loop body (TribeWarSystem.cpp:1571-1582):
emit the cooldown-ended pair to both sides once and set the guard flag. -/
def tickCooldown (now : Int) (w : WarRecord) : WarRecord × List Note :=
  if cdFire now w then
    ({ w with cooldown_notified := true },
     [⟨w.tribe_a, Msg.cooldownEnded⟩, ⟨w.tribe_b, Msg.cooldownEnded⟩])
  else (w, [])

/-- The cleanup condition (TribeWarSystem.cpp:1584-1589): an ended war
whose both cooldown ends are positive and have passed is queued for
removal. -/
def tickRemove (now : Int) (w : WarRecord) : Bool :=
  w.ended_at ≠ 0 ∧ 0 < w.cooldown_end_a ∧ 0 < w.cooldown_end_b ∧
    w.cooldown_end_a ≤ now ∧ w.cooldown_end_b ≤ now

/-- The per-record body of the ProcessTimers loop
(TribeWarSystem.cpp:1526-1590): skip malformed records, then apply the
four steps in source order.  The removal test reads the record after the
forced-end step, exactly as the in-place mutation of the source does. -/
def tickWar (cfg : Config) (now : Int) (war0 : WarRecord) : TickOut :=
  if war0.war_id = 0 ∨ war0.tribe_a = 0 ∨ war0.tribe_b = 0 then ⟨war0, [], false, false⟩
  else
    let war2 := normalizeStart cfg now war0
    let r3 := tickStart now war2
    let war4 := tickSelfTest cfg now r3.1
    let r5 := tickCooldown now war4
    { war := r5.1
      notes := r3.2 ++ r5.2
      changed := startFire now war2 ∨ endFire cfg now r3.1 ∨ cdFire now war4
      remove := tickRemove now war4 }

/-- The body of ProcessTimers inside the try block
(TribeWarSystem.cpp:1515-1609): tick every record, erase the records
queued for removal, rebuild the index only when something was erased, and
report whether anything changed (which makes the caller store `true` into
`need_save`). -/
def ProcessTimersBody (cfg : Config) (s : Store) (now : Int) :
    Store × List Note × Bool :=
  if s.wars.isEmpty then (s, [], false)
  else
    let outs := s.wars.map (tickWar cfg now)
    let notes := (outs.map TickOut.notes).flatten
    let changed0 := outs.any TickOut.changed
    let removedAny := outs.any TickOut.remove
    let kept := (outs.filter (fun o => o.remove = false)).map TickOut.war
    if removedAny then
      ({ next_war_id := s.next_war_id
         wars := kept
         index := RebuildTribeIndexLocked kept now }, notes, true)
    else
      ({ s with wars := kept }, notes, changed0)

/-- The process-level state around the store: the permanent
`auto_timers_enabled` fail-closed flag and the plugin readiness flag
(`plugin_initialized` in the source). -/
structure Sys where
  store : Store
  auto_timers_enabled : Bool := true
  plugin_ready : Bool := true
  deriving Repr, DecidableEq

/-- ProcessTimers (TribeWarSystem.cpp:1503) on the fault-free path: the
two guard flags short-circuit to an empty result, otherwise the body
runs. -/
def ProcessTimers (cfg : Config) (sys : Sys) (now : Int) : Sys × List Note :=
  if sys.auto_timers_enabled = false then (sys, [])
  else if sys.plugin_ready = false then (sys, [])
  else
    let r := ProcessTimersBody cfg sys.store now
    ({ sys with store := r.1 }, r.2.1)

/-- One ProcessTimers invocation with an explicit fault oracle: `none`
runs the body normally; `some (st, notes)` models an unexpected fault
inside the try block with arbitrary partial effects `st` on the store and
the notes pushed before the fault — the catch handler then clears
`auto_timers_enabled` permanently (TribeWarSystem.cpp:1611-1614). -/
def TickInvoke (cfg : Config) (sys : Sys) (now : Int)
    (fault : Option (Store × List Note)) : Sys × List Note :=
  if sys.auto_timers_enabled = false then (sys, [])
  else if sys.plugin_ready = false then (sys, [])
  else
    match fault with
    | some f => ({ sys with store := f.1, auto_timers_enabled := false }, f.2)
    | none =>
      let r := ProcessTimersBody cfg sys.store now
      ({ sys with store := r.1 }, r.2.1)

/-- A sequence of ProcessTimers invocations with fault oracles, returning
the final system state and all emitted notes in order. -/
def TickRun (cfg : Config) (sys : Sys)
    (invs : List (Int × Option (Store × List Note))) : Sys × List Note :=
  match invs with
  | [] => (sys, [])
  | i :: rest =>
    let r := TickInvoke cfg sys i.1 i.2
    let r2 := TickRun cfg r.1 rest
    (r2.1, r.2 ++ r2.2)

/-- The semantic content of the persisted snapshot file: the counter and
the serialized records, field by field (SaveData writes exactly the
fields of `WarRecord` as integers and booleans). -/
structure Snapshot where
  next_war_id : Int
  wars : List WarRecord
  deriving Repr, DecidableEq

/-- SaveData (TribeWarSystem.cpp:623): serialize the counter and every
record of the table, without any filtering. -/
def SaveData (s : Store) : Snapshot :=
  ⟨s.next_war_id, s.wars⟩

/-- The per-record keep test of LoadData (TribeWarSystem.cpp:718-736),
applied after tribe canonicalization: drop non-positive war ids, zero
tribes, ended wars whose both positive cooldown ends have passed, and
ended wars older than the safety bound of twice the cooldown plus one
hour. -/
def loadKeep (cfg : Config) (now : Int) (war : WarRecord) : Bool :=
  let max_cooldown := cfg.cooldown_seconds * 2 + 3600
  if war.war_id ≤ 0 then false
  else if war.tribe_a = 0 ∨ war.tribe_b = 0 then false
  else if war.ended_at ≠ 0 then
    if 0 < war.cooldown_end_a ∧ 0 < war.cooldown_end_b ∧
        war.cooldown_end_a ≤ now ∧ war.cooldown_end_b ≤ now then false
    else if 0 < war.declared_at ∧ max_cooldown < now - war.declared_at then false
    else true
  else true

/-- LoadData (TribeWarSystem.cpp:681) on a successfully parsed snapshot:
canonicalize the tribe ids, filter with `loadKeep`, install the counter
and rebuild the index. -/
def LoadData (cfg : Config) (snap : Snapshot) (now : Int) : Store :=
  let canon := fun (w : WarRecord) =>
    { w with
      tribe_a := CanonicalTribeId w.tribe_a
      tribe_b := CanonicalTribeId w.tribe_b }
  let loaded := (snap.wars.map canon).filter (loadKeep cfg now)
  { next_war_id := snap.next_war_id
    wars := loaded
    index := RebuildTribeIndexLocked loaded now }

/-- The state read and written by FlushSaveIfNeeded: the atomic
`need_save` dirty flag and the static `last_save` stamp. -/
structure FlushState where
  need_save : Bool
  last_save : Int
  deriving Repr, DecidableEq

/-- FlushSaveIfNeeded (TribeWarSystem.cpp:761): `need_save.exchange(false)`
clears the dirty flag first; the write then only happens when the flag
was set and at least 30 seconds have passed since the last write.  The
boolean result reports whether SaveData was called. -/
def FlushSaveIfNeeded (st : FlushState) (now : Int) : FlushState × Bool :=
  let prev := st.need_save
  let st1 : FlushState := { st with need_save := false }
  if prev = false then (st1, false)
  else if now - st1.last_save < 30 then (st1, false)
  else ({ need_save := false, last_save := now }, true)

/-- GetActiveWarsSnapshot (TribeWarSystem.cpp:1664): copy of all records
whose phase at `now` is `Active`. -/
def GetActiveWarsSnapshot (s : Store) (now : Int) : List WarRecord :=
  s.wars.filter (fun war => IsActiveWar war now)

/-- Oracles for the external queries of the structure damage path: server
status, the excluded-blueprint test of the structure being hit, the
abandoned-structure vulnerability window (returning the abandoned
multiplier when open), the availability of the game mode object, and the
alliance query. -/
structure DamageEnv where
  serverReady : Bool
  excludedStructure : Bool
  abandoned : Int → Int → Option Rat
  gameModeAvailable : Bool
  allied : Int → Int → Bool

/-- The alliance test IsAlliedWith inside IsStructureDamageAllowed
(TribeWarSystem.cpp:1729): zero ids are never allied; otherwise the
external query is consulted on the truncated ids. -/
def IsAlliedWith (env : DamageEnv) (tribe_id other_id : Int) : Bool :=
  if tribe_id = 0 ∨ other_id = 0 then false
  else env.allied (toInt32 tribe_id) (toInt32 other_id)

/-- The side test IsOnSide inside IsStructureDamageAllowed
(TribeWarSystem.cpp:1735): equal to the side tribe or allied with it. -/
def IsOnSide (env : DamageEnv) (tribe_id side_tribe : Int) : Bool :=
  if tribe_id = side_tribe then true else IsAlliedWith env tribe_id side_tribe

/-- A war places the attacker and the target on opposing sides
(the loop test at TribeWarSystem.cpp:1744-1749). -/
def opposingSides (env : DamageEnv) (attacker_tribe target_tribe : Int)
    (war : WarRecord) : Bool :=
  (IsOnSide env attacker_tribe war.tribe_a && IsOnSide env target_tribe war.tribe_b) ||
    (IsOnSide env attacker_tribe war.tribe_b && IsOnSide env target_tribe war.tribe_a)

/-- IsStructureDamageAllowed (TribeWarSystem.cpp:1678) from the point
where the structure exists and the attacking tribe has been resolved
through GetTribeIdFromActor (which canonicalizes; the target tribe is
canonicalized here as in the source).  Returns the permission and the
final value of the out multiplier, which starts at 1. -/
def IsStructureDamageAllowed (env : DamageEnv) (cfg : Config) (s : Store)
    (target_tribe_raw attacker_tribe now : Int) : Bool × Rat :=
  if env.serverReady = false then (false, 1)
  else if env.excludedStructure then (true, 1)
  else
    let target_tribe := CanonicalTribeId target_tribe_raw
    if target_tribe = 0 ∨ attacker_tribe = 0 then
      if target_tribe ≠ 0 then
        match env.abandoned target_tribe now with
        | some m => (true, m)
        | none => (false, 1)
      else (false, 1)
    else if target_tribe = attacker_tribe then (true, 1)
    else
      match env.abandoned target_tribe now with
      | some m => (true, m)
      | none =>
        if env.gameModeAvailable = false then (false, 1)
        else
          match (GetActiveWarsSnapshot s now).find?
              (opposingSides env attacker_tribe target_tribe) with
          | some _ => (true, cfg.structure_damage_multiplier)
          | none => (false, 1)

/-- SeedSelfTestWarIfNeeded (TribeWarSystem.cpp:852): under the self-test
configuration, an empty store is seeded with one freshly numbered record
between the two configured test tribes. -/
def SeedSelfTestWar (cfg : Config) (s : Store) (now : Int) : Store :=
  let war : WarRecord :=
    { war_id := s.next_war_id
      tribe_a := cfg.self_test_tribe_a
      tribe_b := cfg.self_test_tribe_b
      declared_at := now
      start_at := now + cfg.war_delay_seconds }
  let wars := s.wars ++ [war]
  { next_war_id := s.next_war_id + 1
    wars := wars
    index := RebuildTribeIndexLocked wars now }

/-- Reachability of a store state at a clock value through the lifecycle
of the engine (spec section 3): the store starts empty, the clock never
goes backwards, records are created by a declaration validated by
IsWarAllowed (every DeclareWar call site in the source is guarded this
way) or by the self-test seeding, and are mutated by the cancellation
handshake and by the timer tick.  The alliance and roster oracles may
differ at every declaration. -/
inductive Reachable (cfg : Config) : Store → Int → Prop where
  | init (c : Int) : Reachable cfg emptyStore c
  | advance {s c} (c2 : Int) : Reachable cfg s c → c ≤ c2 → Reachable cfg s c2
  | declare {s c} (env : Env) (a b : Int) :
      Reachable cfg s c →
      IsWarAllowed env s a b c = .ok () →
      Reachable cfg (DeclareWar cfg s a b c).store c
  | seed {s c} :
      Reachable cfg s c →
      cfg.self_test = true → s.wars = [] →
      cfg.self_test_tribe_a ≠ 0 → cfg.self_test_tribe_b ≠ 0 →
      cfg.self_test_tribe_a ≠ cfg.self_test_tribe_b →
      Reachable cfg (SeedSelfTestWar cfg s c) c
  | reqCancel {s c} (p : Int) :
      Reachable cfg s c → Reachable cfg (RequestCancelWar s p).store c
  | accCancel {s c} (p : Int) :
      Reachable cfg s c → Reachable cfg (AcceptCancelWar cfg s p c).store c
  | tick {s c} :
      Reachable cfg s c → Reachable cfg (ProcessTimersBody cfg s c).1 c

/-! ### Helper lemmas on the phase function and canonical ids -/

theorem canon_idem (x : Int) : CanonicalTribeId (CanonicalTribeId x) = CanonicalTribeId x := by
  unfold CanonicalTribeId
  exact Int.emod_emod_of_dvd x dvd_rfl

/-- Once a record's phase is None it stays None at every later time. -/
theorem phase_none_mono {w : WarRecord} {t u : Int} (h : GetPhase w t = WarPhase.None)
    (htu : t ≤ u) : GetPhase w u = WarPhase.None := by
  unfold GetPhase at h ⊢
  by_cases hid : w.war_id = 0
  · simp [hid]
  · rw [if_neg hid] at h ⊢
    by_cases hend : w.ended_at = 0
    · rw [if_pos hend] at h
      by_cases hlt : t < w.start_at
      · rw [if_pos hlt] at h; exact absurd h (by simp)
      · rw [if_neg hlt] at h; exact absurd h (by simp)
    · rw [if_neg hend] at h ⊢
      by_cases hcd : t < w.cooldown_end_a ∨ t < w.cooldown_end_b
      · rw [if_pos hcd] at h; exact absurd h (by simp)
      · rw [if_neg (by omega : ¬ (u < w.cooldown_end_a ∨ u < w.cooldown_end_b))]

/-- An ongoing record (nonzero id, not ended) is never in phase None. -/
theorem phase_ne_none_of_ongoing {w : WarRecord} (hid : w.war_id ≠ 0)
    (hend : w.ended_at = 0) (t : Int) : GetPhase w t ≠ WarPhase.None := by
  unfold GetPhase
  rw [if_neg hid, if_pos hend]
  by_cases hlt : t < w.start_at
  · rw [if_pos hlt]; simp
  · rw [if_neg hlt]; simp

/-- Records that agree on every field the phase function reads have the
same phase everywhere. -/
theorem GetPhase_congr {w1 w2 : WarRecord} (h1 : w1.war_id = w2.war_id)
    (h2 : w1.start_at = w2.start_at) (h3 : w1.ended_at = w2.ended_at)
    (h4 : w1.cooldown_end_a = w2.cooldown_end_a)
    (h5 : w1.cooldown_end_b = w2.cooldown_end_b) (t : Int) :
    GetPhase w1 t = GetPhase w2 t := by
  unfold GetPhase
  rw [h1, h2, h3, h4, h5]

/-! ### Helper lemmas on the tribe index -/

theorem idxGet_idxSet (m : List (Int × Int)) (k v q : Int) :
    idxGet (idxSet m k v) q = if q = k then some v else idxGet m q := by
  unfold idxGet idxSet
  induction m with
  | nil =>
    by_cases h : q = k
    · simp [List.find?, h]
    · simp [List.find?, h, Ne.symm h]
  | cons kv rest ih =>
    by_cases hk : kv.1 = k
    · rw [List.filter_cons_of_neg (by simp [hk])]
      rw [ih]
      by_cases h : q = k
      · simp [h]
      · have hne : ¬ kv.1 = q := by rw [hk]; exact Ne.symm h
        rw [List.find?_cons_of_neg _ (by simp [hne])]
    · rw [List.filter_cons_of_pos (by simp [hk])]
      by_cases hq : kv.1 = q
      · have hqk : ¬ q = k := fun h => hk (hq.trans h)
        rw [List.cons_append, List.find?_cons_of_pos _ (by simp [hq]),
          List.find?_cons_of_pos _ (by simp [hq]), if_neg hqk]
      · rw [List.cons_append, List.find?_cons_of_neg _ (by simp [hq]),
          List.find?_cons_of_neg _ (by simp [hq])]
        exact ih

/-- A record matches a tribe during an index rebuild at time `now` when
its phase is not None and the tribe is one of its belligerents. -/
def idxHit (now q : Int) (w : WarRecord) : Bool :=
  decide (GetPhase w now ≠ WarPhase.None) && decide (belligerent q w)

theorem rebuild_foldl_get (now q : Int) :
    ∀ (L : List WarRecord) (m : List (Int × Int)),
      idxGet
        (L.foldl
          (fun m war =>
            if GetPhase war now = WarPhase.None then m
            else idxSet (idxSet m war.tribe_a war.war_id) war.tribe_b war.war_id)
          m) q =
      (match L.reverse.find? (idxHit now q) with
       | some w => some w.war_id
       | none => idxGet m q) := by
  intro L
  induction L with
  | nil => intro m; simp
  | cons w L ih =>
    intro m
    rw [List.foldl_cons, ih, List.reverse_cons, List.find?_append]
    cases hf : L.reverse.find? (idxHit now q) with
    | some x => rw [Option.or_some]
    | none =>
      rw [Option.none_or]
      by_cases hp : GetPhase w now = WarPhase.None
      · have hhit : ¬ idxHit now q w := by simp [idxHit, hp]
        rw [if_pos hp, List.find?_cons_of_neg _ hhit, List.find?_nil]
      · rw [if_neg hp, idxGet_idxSet, idxGet_idxSet]
        by_cases hb : belligerent q w
        · have hhit : idxHit now q w := by simp [idxHit, hp, hb]
          rw [List.find?_cons_of_pos _ hhit]
          rcases hb with hba | hbb
          · by_cases hqb : q = w.tribe_b
            · rw [if_pos hqb]
            · rw [if_neg hqb, if_pos hba]
          · rw [if_pos hbb]
        · have hhit : ¬ idxHit now q w := by simp [idxHit, hp, hb]
          have hna : ¬ q = w.tribe_a := fun h => hb (Or.inl h)
          have hnb : ¬ q = w.tribe_b := fun h => hb (Or.inr h)
          rw [List.find?_cons_of_neg _ hhit, List.find?_nil, if_neg hnb, if_neg hna]

theorem rebuild_sound {L : List WarRecord} {now q id : Int}
    (h : idxGet (RebuildTribeIndexLocked L now) q = some id) :
    ∃ w, w ∈ L ∧ w.war_id = id ∧ belligerent q w ∧ GetPhase w now ≠ WarPhase.None := by
  unfold RebuildTribeIndexLocked at h
  rw [rebuild_foldl_get] at h
  cases hf : L.reverse.find? (idxHit now q) with
  | none => rw [hf] at h; simp [idxGet] at h
  | some w =>
    rw [hf] at h
    have hm : w ∈ L := List.mem_reverse.mp (List.mem_of_find?_eq_some hf)
    have hp := List.find?_some hf
    simp only [idxHit, Bool.and_eq_true, decide_eq_true_eq] at hp
    exact ⟨w, hm, by simpa using h, hp.2, hp.1⟩

theorem rebuild_complete {L : List WarRecord} {now : Int}
    (huniq : ∀ q w1 w2, w1 ∈ L → w2 ∈ L → belligerent q w1 → belligerent q w2 →
      GetPhase w1 now ≠ WarPhase.None → GetPhase w2 now ≠ WarPhase.None →
      w1.war_id = w2.war_id)
    {w : WarRecord} (hw : w ∈ L) (hq : GetPhase w now ≠ WarPhase.None) {q : Int}
    (hb : belligerent q w) :
    idxGet (RebuildTribeIndexLocked L now) q = some w.war_id := by
  unfold RebuildTribeIndexLocked
  rw [rebuild_foldl_get]
  cases hf : L.reverse.find? (idxHit now q) with
  | none =>
    exfalso
    have : idxHit now q w = true := by simp [idxHit, hq, hb]
    have := List.find?_eq_none.mp hf w (List.mem_reverse.mpr hw)
    simp_all
  | some x =>
    have hm : x ∈ L := List.mem_reverse.mp (List.mem_of_find?_eq_some hf)
    have hp := List.find?_some hf
    simp only [idxHit, Bool.and_eq_true, decide_eq_true_eq] at hp
    simpa using huniq q x w hm hw hp.2 hb hp.1 hq

/-! ### The store invariant preserved by the engine lifecycle -/

/-- The inductive invariant of the war store at clock value `c`: ids are
positive, below the counter and pairwise distinct; the index is sound and
(for records visible at `c`) complete; and each tribe is a belligerent of
at most one record whose phase is non-None, at every time from `c` on. -/
structure Inv (s : Store) (c : Int) : Prop where
  next_pos : 1 ≤ s.next_war_id
  ids_pos : ∀ w ∈ s.wars, 1 ≤ w.war_id ∧ w.war_id < s.next_war_id
  ids_nodup : (s.wars.map WarRecord.war_id).Nodup
  idx_sound : ∀ p id, idxGet s.index p = some id →
    ∃ w, w ∈ s.wars ∧ w.war_id = id ∧ belligerent p w
  idx_complete : ∀ w ∈ s.wars, GetPhase w c ≠ WarPhase.None →
    idxGet s.index w.tribe_a = some w.war_id ∧ idxGet s.index w.tribe_b = some w.war_id
  excl : ∀ t, c ≤ t → ∀ p w1 w2, w1 ∈ s.wars → w2 ∈ s.wars →
    belligerent p w1 → belligerent p w2 →
    GetPhase w1 t ≠ WarPhase.None → GetPhase w2 t ≠ WarPhase.None → w1 = w2

/-- In a table with pairwise distinct ids, the id search finds exactly
the member with that id. -/
theorem find_id_unique {wars : List WarRecord}
    (hnd : (wars.map WarRecord.war_id).Nodup) {w : WarRecord} (hw : w ∈ wars) :
    wars.find? (fun x => x.war_id = w.war_id) = some w := by
  induction wars with
  | nil => cases hw
  | cons h rest ih =>
    rw [List.map_cons, List.nodup_cons] at hnd
    rcases List.mem_cons.mp hw with heq | hw
    · subst heq
      exact List.find?_cons_of_pos _ (by simp)
    · by_cases hh : h.war_id = w.war_id
      · exact absurd (hh ▸ List.mem_map_of_mem WarRecord.war_id hw) hnd.1
      · rw [List.find?_cons_of_neg _ (by simp [hh])]
        exact ih hnd.2 hw

/-- In a table with pairwise distinct ids, members are determined by
their ids. -/
theorem eq_of_mem_of_id_eq {wars : List WarRecord}
    (hnd : (wars.map WarRecord.war_id).Nodup) {w1 w2 : WarRecord}
    (h1 : w1 ∈ wars) (h2 : w2 ∈ wars) (hid : w1.war_id = w2.war_id) : w1 = w2 := by
  have e1 := find_id_unique hnd h1
  have e2 := find_id_unique hnd h2
  rw [hid] at e1
  exact Option.some_injective _ (e1.symm.trans e2)

theorem mem_updateWar {wars : List WarRecord} {id : Int} {v w2 : WarRecord}
    (h : w2 ∈ updateWar wars id v) :
    ∃ w, w ∈ wars ∧ w2 = (if w.war_id = id then v else w) := by
  rcases List.mem_map.mp h with ⟨w, hw, he⟩
  exact ⟨w, hw, he.symm⟩

theorem updateWar_mem {wars : List WarRecord} {id : Int} {v : WarRecord}
    {w : WarRecord} (hw : w ∈ wars) :
    (if w.war_id = id then v else w) ∈ updateWar wars id v :=
  List.mem_map_of_mem _ hw

theorem updateWar_ids {wars : List WarRecord} {id : Int} {v : WarRecord}
    (hv : v.war_id = id) :
    (updateWar wars id v).map WarRecord.war_id = wars.map WarRecord.war_id := by
  unfold updateWar
  rw [List.map_map]
  refine List.map_congr_left ?_
  intro w _
  by_cases h : w.war_id = id <;> simp [h, hv]

/-- If the phase-checked lookup finds nothing for a canonical tribe id,
then under the invariant every record with that tribe as a belligerent is
in phase None at the lookup time. -/
theorem no_war_of_copy_none {s : Store} {c : Int} (inv : Inv s c) {a : Int}
    (hcanon : CanonicalTribeId a = a)
    (hnone : GetWarForTribeCopy s a c = none) :
    ∀ w ∈ s.wars, belligerent a w → GetPhase w c = WarPhase.None := by
  intro w hw hb
  by_contra hph
  have hidx : idxGet s.index a = some w.war_id := by
    rcases hb with hba | hbb
    · exact hba ▸ (inv.idx_complete w hw hph).1
    · exact hbb ▸ (inv.idx_complete w hw hph).2
  have hfind : s.wars.find? (fun x => x.war_id = w.war_id) = some w :=
    find_id_unique inv.ids_nodup hw
  have hcopy : GetWarForTribeCopy s a c = some w := by
    unfold GetWarForTribeCopy GetWarForTribeLocked
    simp only [hcanon, hidx, hfind, if_neg hph]
  rw [hcopy] at hnone
  cases hnone

/-! ### Per-record facts about the timer tick -/

/-- Identity fields (id and belligerents) untouched by every tick stage. -/
theorem stages_id_fields (cfg : Config) (now : Int) (w : WarRecord) :
    (normalizeStart cfg now w).war_id = w.war_id ∧
      (normalizeStart cfg now w).tribe_a = w.tribe_a ∧
      (normalizeStart cfg now w).tribe_b = w.tribe_b ∧
      (tickStart now w).1.war_id = w.war_id ∧
      (tickStart now w).1.tribe_a = w.tribe_a ∧
      (tickStart now w).1.tribe_b = w.tribe_b ∧
      (tickSelfTest cfg now w).war_id = w.war_id ∧
      (tickSelfTest cfg now w).tribe_a = w.tribe_a ∧
      (tickSelfTest cfg now w).tribe_b = w.tribe_b ∧
      (tickCooldown now w).1.war_id = w.war_id ∧
      (tickCooldown now w).1.tribe_a = w.tribe_a ∧
      (tickCooldown now w).1.tribe_b = w.tribe_b := by
  unfold normalizeStart tickStart tickSelfTest tickCooldown
  split_ifs <;>
    simp_all [apply_ite WarRecord.war_id, apply_ite WarRecord.tribe_a,
      apply_ite WarRecord.tribe_b]

theorem tickWar_war_id (cfg : Config) (now : Int) (w : WarRecord) :
    (tickWar cfg now w).war.war_id = w.war_id := by
  unfold tickWar
  split_ifs with hg
  · rfl
  · simp only [(stages_id_fields cfg now _).2.2.2.2.2.2.2.2.2.1,
      (stages_id_fields cfg now _).2.2.2.2.2.2.1,
      (stages_id_fields cfg now _).2.2.2.1,
      (stages_id_fields cfg now _).1]

theorem tickWar_tribes (cfg : Config) (now : Int) (w : WarRecord) :
    (tickWar cfg now w).war.tribe_a = w.tribe_a ∧
      (tickWar cfg now w).war.tribe_b = w.tribe_b := by
  unfold tickWar
  split_ifs with hg
  · exact ⟨rfl, rfl⟩
  · constructor
    · simp only [(stages_id_fields cfg now _).2.2.2.2.2.2.2.2.2.2.1,
        (stages_id_fields cfg now _).2.2.2.2.2.2.2.1,
        (stages_id_fields cfg now _).2.2.2.2.1,
        (stages_id_fields cfg now _).2.1]
    · simp only [(stages_id_fields cfg now _).2.2.2.2.2.2.2.2.2.2.2,
        (stages_id_fields cfg now _).2.2.2.2.2.2.2.2.1,
        (stages_id_fields cfg now _).2.2.2.2.2.1,
        (stages_id_fields cfg now _).2.2.1]

theorem normalizeStart_fields (cfg : Config) (now : Int) (w : WarRecord) :
    (normalizeStart cfg now w).ended_at = w.ended_at ∧
      (normalizeStart cfg now w).cooldown_end_a = w.cooldown_end_a ∧
      (normalizeStart cfg now w).cooldown_end_b = w.cooldown_end_b ∧
      (normalizeStart cfg now w).start_notified = w.start_notified ∧
      (normalizeStart cfg now w).cooldown_notified = w.cooldown_notified ∧
      (normalizeStart cfg now w).cancel_requested_by_a = w.cancel_requested_by_a ∧
      (normalizeStart cfg now w).cancel_requested_by_b = w.cancel_requested_by_b ∧
      (normalizeStart cfg now w).declared_at = w.declared_at := by
  simp only [normalizeStart]
  split_ifs <;> simp_all

theorem normalizeStart_of_ne (cfg : Config) (now : Int) {w : WarRecord}
    (h : w.start_at ≠ 0) : normalizeStart cfg now w = w := by
  simp only [normalizeStart]
  rw [if_neg (show ¬ (w.start_at = 0 ∧ w.declared_at ≠ 0) from fun hc => h hc.1),
    if_neg h]

theorem tickStart_pos {now : Int} {w : WarRecord} (h : startFire now w) :
    tickStart now w =
      ({ w with start_notified := true },
       [⟨w.tribe_a, Msg.warStarted⟩, ⟨w.tribe_b, Msg.warStarted⟩]) := by
  unfold tickStart
  rw [if_pos h]

theorem tickStart_neg {now : Int} {w : WarRecord} (h : ¬ startFire now w) :
    tickStart now w = (w, []) := by
  unfold tickStart
  rw [if_neg h]

theorem tickSelfTest_pos {cfg : Config} {now : Int} {w : WarRecord}
    (h : endFire cfg now w) :
    tickSelfTest cfg now w =
      { w with
        ended_at := now
        cooldown_end_a := now + cfg.cooldown_seconds
        cooldown_end_b := now + cfg.cooldown_seconds
        cooldown_notified := false } := by
  unfold tickSelfTest
  rw [if_pos h]

theorem tickSelfTest_neg {cfg : Config} {now : Int} {w : WarRecord}
    (h : ¬ endFire cfg now w) : tickSelfTest cfg now w = w := by
  unfold tickSelfTest
  rw [if_neg h]

theorem tickCooldown_pos {now : Int} {w : WarRecord} (h : cdFire now w) :
    tickCooldown now w =
      ({ w with cooldown_notified := true },
       [⟨w.tribe_a, Msg.cooldownEnded⟩, ⟨w.tribe_b, Msg.cooldownEnded⟩]) := by
  unfold tickCooldown
  rw [if_pos h]

theorem tickCooldown_neg {now : Int} {w : WarRecord} (h : ¬ cdFire now w) :
    tickCooldown now w = (w, []) := by
  unfold tickCooldown
  rw [if_neg h]

theorem tickCooldown_fields (now : Int) (w : WarRecord) :
    (tickCooldown now w).1.war_id = w.war_id ∧
      (tickCooldown now w).1.tribe_a = w.tribe_a ∧
      (tickCooldown now w).1.tribe_b = w.tribe_b ∧
      (tickCooldown now w).1.ended_at = w.ended_at ∧
      (tickCooldown now w).1.cooldown_end_a = w.cooldown_end_a ∧
      (tickCooldown now w).1.cooldown_end_b = w.cooldown_end_b ∧
      (tickCooldown now w).1.start_at = w.start_at ∧
      (tickCooldown now w).1.start_notified = w.start_notified := by
  unfold tickCooldown
  split_ifs <;> simp_all

theorem not_startFire_of_ended {now : Int} {w : WarRecord}
    (h : w.ended_at ≠ 0) : ¬ startFire now w := by
  simp [startFire, h]

theorem not_endFire_of_ended {cfg : Config} {now : Int} {w : WarRecord}
    (h : w.ended_at ≠ 0) : ¬ endFire cfg now w := by
  simp [endFire, h]

theorem not_cdFire_of_ongoing {now : Int} {w : WarRecord}
    (h : w.ended_at = 0) : ¬ cdFire now w := by
  simp [cdFire, h]

theorem not_tickRemove_of_ongoing {now : Int} {w : WarRecord}
    (h : w.ended_at = 0) : ¬ tickRemove now w := by
  simp [tickRemove, h]

/-- On an already-ended record the tick reduces to the cooldown stage
over the normalized record. -/
theorem tickWar_of_ended (cfg : Config) (now : Int) {w : WarRecord}
    (h : w.ended_at ≠ 0) (hg : ¬ (w.war_id = 0 ∨ w.tribe_a = 0 ∨ w.tribe_b = 0)) :
    tickWar cfg now w =
      ⟨(tickCooldown now (normalizeStart cfg now w)).1,
       (tickCooldown now (normalizeStart cfg now w)).2,
       cdFire now (normalizeStart cfg now w),
       tickRemove now (normalizeStart cfg now w)⟩ := by
  have hw2 : (normalizeStart cfg now w).ended_at = w.ended_at :=
    (normalizeStart_fields cfg now w).1
  have hsf : ¬ startFire now (normalizeStart cfg now w) :=
    not_startFire_of_ended (hw2 ▸ h)
  have hef : ¬ endFire cfg now (normalizeStart cfg now w) :=
    not_endFire_of_ended (hw2 ▸ h)
  simp only [tickWar]
  rw [if_neg hg, tickStart_neg hsf, tickSelfTest_neg hef]
  simp [hsf, hef]

theorem tickWar_fields_of_ended (cfg : Config) (now : Int) {w : WarRecord}
    (h : w.ended_at ≠ 0) :
    (tickWar cfg now w).war.ended_at = w.ended_at ∧
      (tickWar cfg now w).war.cooldown_end_a = w.cooldown_end_a ∧
      (tickWar cfg now w).war.cooldown_end_b = w.cooldown_end_b := by
  by_cases hg : w.war_id = 0 ∨ w.tribe_a = 0 ∨ w.tribe_b = 0
  · have : tickWar cfg now w = ⟨w, [], false, false⟩ := by
      unfold tickWar
      rw [if_pos hg]
    rw [this]
    exact ⟨rfl, rfl, rfl⟩
  · rw [tickWar_of_ended cfg now h hg]
    obtain ⟨-, -, -, he, ha, hb, -, -⟩ :=
      tickCooldown_fields now (normalizeStart cfg now w)
    obtain ⟨ne, na, nb, -⟩ := normalizeStart_fields cfg now w
    exact ⟨he.trans ne, ha.trans na, hb.trans nb⟩

/-- A ticked record is in phase None only where the original record
already was: the tick only ever shrinks the set of visible times. -/
theorem tickWar_phase_shrink (cfg : Config) (now : Int) (w : WarRecord) :
    ∀ t, GetPhase (tickWar cfg now w).war t ≠ WarPhase.None →
      GetPhase w t ≠ WarPhase.None := by
  intro t hph
  by_cases hg : w.war_id = 0 ∨ w.tribe_a = 0 ∨ w.tribe_b = 0
  · have : (tickWar cfg now w).war = w := by
      simp only [tickWar]
      rw [if_pos hg]
    rwa [this] at hph
  · by_cases hend : w.ended_at = 0
    · exact phase_ne_none_of_ongoing (fun h => hg (Or.inl h)) hend t
    · obtain ⟨he, ha, hb⟩ := tickWar_fields_of_ended cfg now (w := w) hend
      intro hw
      apply hph
      unfold GetPhase at hw ⊢
      rw [tickWar_war_id, he, ha, hb]
      rw [if_neg (fun h => hg (Or.inl h))] at hw ⊢
      rw [if_neg hend] at hw ⊢
      by_cases hcd : t < w.cooldown_end_a ∨ t < w.cooldown_end_b
      · rw [if_pos hcd] at hw; exact absurd hw (by simp)
      · rw [if_neg hcd]

/-! ### Preservation of the invariant by every lifecycle step -/

theorem Inv_empty (c : Int) : Inv emptyStore c := by
  refine ⟨by norm_num [emptyStore], ?_, ?_, ?_, ?_, ?_⟩
  · intro w hw; cases hw
  · simp [emptyStore]
  · intro p id h; simp [emptyStore, idxGet] at h
  · intro w hw; cases hw
  · intro t ht p w1 w2 h1 h2; cases h1

theorem Inv_advance {s : Store} {c c2 : Int} (inv : Inv s c) (hle : c ≤ c2) :
    Inv s c2 := by
  refine ⟨inv.next_pos, inv.ids_pos, inv.ids_nodup, inv.idx_sound, ?_, ?_⟩
  · intro w hw hph
    refine inv.idx_complete w hw (fun hc => hph ?_)
    exact phase_none_mono hc hle
  · intro t ht
    exact inv.excl t (le_trans hle ht)

/-- Inserting a freshly numbered record whose belligerents have only
phase-None records preserves the invariant; the index is rebuilt. -/
theorem Inv_insert {s : Store} {c : Int} (inv : Inv s c) {new : WarRecord}
    (hid : new.war_id = s.next_war_id)
    (hold : ∀ w ∈ s.wars, ∀ p, belligerent p new → belligerent p w →
      GetPhase w c = WarPhase.None) :
    Inv
      { next_war_id := s.next_war_id + 1
        wars := s.wars ++ [new]
        index := RebuildTribeIndexLocked (s.wars ++ [new]) c } c := by
  have hexcl : ∀ t, c ≤ t → ∀ p w1 w2, w1 ∈ s.wars ++ [new] → w2 ∈ s.wars ++ [new] →
      belligerent p w1 → belligerent p w2 →
      GetPhase w1 t ≠ WarPhase.None → GetPhase w2 t ≠ WarPhase.None → w1 = w2 := by
    intro t ht p w1 w2 h1 h2 hb1 hb2 hp1 hp2
    rcases List.mem_append.mp h1 with h1o | h1n
    · rcases List.mem_append.mp h2 with h2o | h2n
      · exact inv.excl t ht p w1 w2 h1o h2o hb1 hb2 hp1 hp2
      · have e2 : w2 = new := by simpa using h2n
        rw [e2] at hb2
        exact absurd (phase_none_mono (hold w1 h1o p hb2 hb1) ht) hp1
    · have e1 : w1 = new := by simpa using h1n
      rcases List.mem_append.mp h2 with h2o | h2n
      · rw [e1] at hb1
        exact absurd (phase_none_mono (hold w2 h2o p hb1 hb2) ht) hp2
      · have e2 : w2 = new := by simpa using h2n
        rw [e1, e2]
  refine ⟨?_, ?_, ?_, ?_, ?_, hexcl⟩
  · show 1 ≤ s.next_war_id + 1
    have := inv.next_pos
    omega
  · intro w hw
    show 1 ≤ w.war_id ∧ w.war_id < s.next_war_id + 1
    rcases List.mem_append.mp hw with hwo | hwn
    · have := inv.ids_pos w hwo
      omega
    · have hwn : w = new := by simpa using hwn
      have := inv.next_pos
      rw [hwn, hid]
      omega
  · show ((s.wars ++ [new]).map WarRecord.war_id).Nodup
    rw [List.map_append, List.nodup_append]
    refine ⟨inv.ids_nodup, by simp, ?_⟩
    intro x hx
    rcases List.mem_map.mp hx with ⟨w, hw, rfl⟩
    have := (inv.ids_pos w hw).2
    simp only [List.map_cons, List.map_nil, List.mem_singleton]
    rw [hid]
    omega
  · intro p id h
    obtain ⟨w, hw, hwid, hb, -⟩ := rebuild_sound h
    exact ⟨w, hw, hwid, hb⟩
  · intro w hw hph
    have huniq : ∀ q w1 w2, w1 ∈ s.wars ++ [new] → w2 ∈ s.wars ++ [new] →
        belligerent q w1 → belligerent q w2 → GetPhase w1 c ≠ WarPhase.None →
        GetPhase w2 c ≠ WarPhase.None → w1.war_id = w2.war_id := by
      intro q w1 w2 h1 h2 hb1 hb2 hp1 hp2
      rw [hexcl c le_rfl q w1 w2 h1 h2 hb1 hb2 hp1 hp2]
    exact ⟨rebuild_complete huniq hw hph (Or.inl rfl),
      rebuild_complete huniq hw hph (Or.inr rfl)⟩

/-- The busy check inside a successful IsWarAllowed: both canonical
parties had no visible war. -/
theorem isWarAllowed_ok_no_war {env : Env} {s : Store} {A B now : Int}
    (h : IsWarAllowed env s A B now = .ok ()) :
    GetWarForTribeCopy s (CanonicalTribeId A) now = none ∧
      GetWarForTribeCopy s (CanonicalTribeId B) now = none ∧
      CanonicalTribeId A ≠ 0 ∧ CanonicalTribeId B ≠ 0 ∧
      CanonicalTribeId A ≠ CanonicalTribeId B := by
  simp only [IsWarAllowed] at h
  split_ifs at h with h1 h2 h3 h4 h5 h6 <;> try exact Except.noConfusion h
  push_neg at h1 h4
  exact ⟨Option.not_isSome_iff_eq_none.mp (by simpa using h4.1),
    Option.not_isSome_iff_eq_none.mp (by simpa using h4.2), h1.1, h1.2, h2⟩

theorem Inv_declare {cfg : Config} {env : Env} {s : Store} {c : Int} {A B : Int}
    (inv : Inv s c) (hok : IsWarAllowed env s A B c = .ok ()) :
    Inv (DeclareWar cfg s A B c).store c := by
  obtain ⟨hca, hcb, -, -, -⟩ := isWarAllowed_ok_no_war hok
  refine Inv_insert inv rfl ?_
  intro w hw p hbnew hbw
  rcases hbnew with hpa | hpb
  · subst hpa
    exact no_war_of_copy_none inv (canon_idem A) hca w hw hbw
  · subst hpb
    exact no_war_of_copy_none inv (canon_idem B) hcb w hw hbw

theorem Inv_seed {cfg : Config} {s : Store} {c : Int} (inv : Inv s c)
    (hemp : s.wars = []) : Inv (SeedSelfTestWar cfg s c) c := by
  unfold SeedSelfTestWar
  refine Inv_insert inv rfl ?_
  intro w hw
  rw [hemp] at hw
  cases hw

theorem mem_of_locked {s : Store} {tid : Int} {war : WarRecord}
    (h : GetWarForTribeLocked s tid = some war) : war ∈ s.wars := by
  unfold GetWarForTribeLocked at h
  cases hidx : idxGet s.index tid with
  | none => rw [hidx] at h; cases h
  | some id =>
    rw [hidx] at h
    exact List.mem_of_find?_eq_some h

/-- Replacing a member by a record that only differs in fields the phase
function never reads (here: the cancel flags and the notification guards)
preserves the invariant with the index untouched. -/
theorem Inv_update_flags {s : Store} {c : Int} (inv : Inv s c)
    {war war1 : WarRecord} (hw : war ∈ s.wars)
    (hid : war1.war_id = war.war_id) (hta : war1.tribe_a = war.tribe_a)
    (htb : war1.tribe_b = war.tribe_b) (hst : war1.start_at = war.start_at)
    (hend : war1.ended_at = war.ended_at)
    (hca : war1.cooldown_end_a = war.cooldown_end_a)
    (hcb : war1.cooldown_end_b = war.cooldown_end_b) :
    Inv { s with wars := updateWar s.wars war.war_id war1 } c := by
  have hph : ∀ t, GetPhase war1 t = GetPhase war t :=
    GetPhase_congr hid hst hend hca hcb
  have himg : ∀ w ∈ s.wars,
      (if w.war_id = war.war_id then war1 else w).war_id = w.war_id ∧
      (if w.war_id = war.war_id then war1 else w).tribe_a = w.tribe_a ∧
      (if w.war_id = war.war_id then war1 else w).tribe_b = w.tribe_b ∧
      ∀ t, GetPhase (if w.war_id = war.war_id then war1 else w) t = GetPhase w t := by
    intro w hw2
    by_cases he : w.war_id = war.war_id
    · have : w = war := eq_of_mem_of_id_eq inv.ids_nodup hw2 hw he
      rw [this]
      simp [hid, hta, htb, hph]
    · simp [he]
  refine ⟨inv.next_pos, ?_, ?_, ?_, ?_, ?_⟩
  · intro w2 hw2
    obtain ⟨w, hw0, rfl⟩ := mem_updateWar hw2
    show 1 ≤ _ ∧ _ < s.next_war_id
    rw [(himg w hw0).1]
    exact inv.ids_pos w hw0
  · show ((updateWar s.wars war.war_id war1).map WarRecord.war_id).Nodup
    rw [updateWar_ids hid]
    exact inv.ids_nodup
  · intro p id h
    obtain ⟨w, hw0, hwid, hb⟩ := inv.idx_sound p id h
    refine ⟨if w.war_id = war.war_id then war1 else w, updateWar_mem hw0, ?_, ?_⟩
    · rw [(himg w hw0).1, hwid]
    · unfold belligerent at hb ⊢
      rw [(himg w hw0).2.1, (himg w hw0).2.2.1]
      exact hb
  · intro w2 hw2 hph2
    obtain ⟨w, hw0, rfl⟩ := mem_updateWar hw2
    rw [(himg w hw0).2.2.2 c] at hph2
    have := inv.idx_complete w hw0 hph2
    rw [(himg w hw0).1, (himg w hw0).2.1, (himg w hw0).2.2.1]
    exact this
  · intro t ht p w1m w2m h1 h2 hb1 hb2 hp1 hp2
    obtain ⟨u1, hu1, rfl⟩ := mem_updateWar h1
    obtain ⟨u2, hu2, rfl⟩ := mem_updateWar h2
    have e : u1 = u2 := by
      refine inv.excl t ht p u1 u2 hu1 hu2 ?_ ?_ ?_ ?_
      · unfold belligerent at hb1 ⊢
        rw [(himg u1 hu1).2.1, (himg u1 hu1).2.2.1] at hb1
        exact hb1
      · unfold belligerent at hb2 ⊢
        rw [(himg u2 hu2).2.1, (himg u2 hu2).2.2.1] at hb2
        exact hb2
      · rw [(himg u1 hu1).2.2.2 t] at hp1
        exact hp1
      · rw [(himg u2 hu2).2.2.2 t] at hp2
        exact hp2
    rw [e]

/-- Replacing a member by a record with the same identity whose set of
visible times only shrinks preserves the invariant, with the index
rebuilt at the current clock. -/
theorem Inv_update_shrink {s : Store} {c : Int} (inv : Inv s c)
    {war war2 : WarRecord} (hw : war ∈ s.wars)
    (hid : war2.war_id = war.war_id) (hta : war2.tribe_a = war.tribe_a)
    (htb : war2.tribe_b = war.tribe_b)
    (hshrink : ∀ t, GetPhase war2 t ≠ WarPhase.None → GetPhase war t ≠ WarPhase.None) :
    Inv
      { next_war_id := s.next_war_id
        wars := updateWar s.wars war.war_id war2
        index := RebuildTribeIndexLocked (updateWar s.wars war.war_id war2) c } c := by
  have himg : ∀ w ∈ s.wars,
      (if w.war_id = war.war_id then war2 else w).war_id = w.war_id ∧
      (if w.war_id = war.war_id then war2 else w).tribe_a = w.tribe_a ∧
      (if w.war_id = war.war_id then war2 else w).tribe_b = w.tribe_b ∧
      ∀ t, GetPhase (if w.war_id = war.war_id then war2 else w) t ≠ WarPhase.None →
        GetPhase w t ≠ WarPhase.None := by
    intro w hw2
    by_cases he : w.war_id = war.war_id
    · have : w = war := eq_of_mem_of_id_eq inv.ids_nodup hw2 hw he
      rw [this]
      simp only [if_pos rfl]
      exact ⟨hid, hta, htb, hshrink⟩
    · simp [he]
  have hexcl : ∀ t, c ≤ t → ∀ p w1m w2m,
      w1m ∈ updateWar s.wars war.war_id war2 → w2m ∈ updateWar s.wars war.war_id war2 →
      belligerent p w1m → belligerent p w2m →
      GetPhase w1m t ≠ WarPhase.None → GetPhase w2m t ≠ WarPhase.None → w1m = w2m := by
    intro t ht p w1m w2m h1 h2 hb1 hb2 hp1 hp2
    obtain ⟨u1, hu1, rfl⟩ := mem_updateWar h1
    obtain ⟨u2, hu2, rfl⟩ := mem_updateWar h2
    have e : u1 = u2 := by
      refine inv.excl t ht p u1 u2 hu1 hu2 ?_ ?_
        ((himg u1 hu1).2.2.2 t hp1) ((himg u2 hu2).2.2.2 t hp2)
      · unfold belligerent at hb1 ⊢
        rw [(himg u1 hu1).2.1, (himg u1 hu1).2.2.1] at hb1
        exact hb1
      · unfold belligerent at hb2 ⊢
        rw [(himg u2 hu2).2.1, (himg u2 hu2).2.2.1] at hb2
        exact hb2
    rw [e]
  refine ⟨inv.next_pos, ?_, ?_, ?_, ?_, hexcl⟩
  · intro w2m hw2m
    obtain ⟨w, hw0, rfl⟩ := mem_updateWar hw2m
    show 1 ≤ _ ∧ _ < s.next_war_id
    rw [(himg w hw0).1]
    exact inv.ids_pos w hw0
  · show ((updateWar s.wars war.war_id war2).map WarRecord.war_id).Nodup
    rw [updateWar_ids hid]
    exact inv.ids_nodup
  · intro p id h
    obtain ⟨w, hwm, hwid, hb, -⟩ := rebuild_sound h
    exact ⟨w, hwm, hwid, hb⟩
  · intro w2m hw2m hph2
    have huniq : ∀ q u1 u2, u1 ∈ updateWar s.wars war.war_id war2 →
        u2 ∈ updateWar s.wars war.war_id war2 → belligerent q u1 → belligerent q u2 →
        GetPhase u1 c ≠ WarPhase.None → GetPhase u2 c ≠ WarPhase.None →
        u1.war_id = u2.war_id := by
      intro q u1 u2 h1 h2 hb1 hb2 hq1 hq2
      rw [hexcl c le_rfl q u1 u2 h1 h2 hb1 hb2 hq1 hq2]
    exact ⟨rebuild_complete huniq hw2m hph2 (Or.inl rfl),
      rebuild_complete huniq hw2m hph2 (Or.inr rfl)⟩

theorem Inv_reqCancel {s : Store} {c : Int} (inv : Inv s c) (p : Int) :
    Inv (RequestCancelWar s p).store c := by
  simp only [RequestCancelWar]
  cases hlk : GetWarForTribeLocked s (CanonicalTribeId p) with
  | none => exact inv
  | some war =>
    simp only [hlk]
    split_ifs with hend <;>
      first
      | exact inv
      | exact Inv_update_flags inv (mem_of_locked hlk) rfl rfl rfl rfl rfl rfl rfl

theorem Inv_accCancel {cfg : Config} {s : Store} {c : Int} (inv : Inv s c) (p : Int) :
    Inv (AcceptCancelWar cfg s p c).store c := by
  simp only [AcceptCancelWar]
  cases hlk : GetWarForTribeLocked s (CanonicalTribeId p) with
  | none => exact inv
  | some war =>
    simp only [hlk]
    split_ifs with hend ha hboth1 hb2 hboth2 hboth3 <;>
      first
      | exact inv
      | exact Inv_update_flags inv (mem_of_locked hlk) rfl rfl rfl rfl rfl rfl rfl
      | (refine Inv_update_shrink inv (mem_of_locked hlk) rfl rfl rfl
          (fun t _ => phase_ne_none_of_ongoing ?_ (by omega) t)
         have := (inv.ids_pos war (mem_of_locked hlk)).1
         omega)

theorem Inv_tick {cfg : Config} {s : Store} {c : Int} (inv : Inv s c) :
    Inv (ProcessTimersBody cfg s c).1 c := by
  simp only [ProcessTimersBody]
  split_ifs with hemp hrem
  · exact inv
  all_goals {
    have hkmem : ∀ w2 ∈ (((s.wars.map (tickWar cfg c)).filter
        (fun o => o.remove = false)).map TickOut.war),
        ∃ w, w ∈ s.wars ∧ w2 = (tickWar cfg c w).war := by
      intro w2 h2
      rcases List.mem_map.mp h2 with ⟨o, ho, rfl⟩
      rcases List.mem_filter.mp ho with ⟨ho2, -⟩
      rcases List.mem_map.mp ho2 with ⟨w, hw, rfl⟩
      exact ⟨w, hw, rfl⟩
    have hids : ((((s.wars.map (tickWar cfg c)).filter
        (fun o => o.remove = false)).map TickOut.war).map WarRecord.war_id).Sublist
        (s.wars.map WarRecord.war_id) := by
      rw [List.map_map]
      have h1 : (((s.wars.map (tickWar cfg c)).filter (fun o => o.remove = false)).map
          (WarRecord.war_id ∘ TickOut.war)).Sublist
          ((s.wars.map (tickWar cfg c)).map (WarRecord.war_id ∘ TickOut.war)) :=
        List.Sublist.map _ (List.filter_sublist _)
      have h2 : (s.wars.map (tickWar cfg c)).map (WarRecord.war_id ∘ TickOut.war) =
          s.wars.map WarRecord.war_id := by
        rw [List.map_map]
        exact List.map_congr_left (fun w _ => tickWar_war_id cfg c w)
      rwa [h2] at h1
    have hexcl2 : ∀ t, c ≤ t → ∀ p w1 w2,
        w1 ∈ (((s.wars.map (tickWar cfg c)).filter
          (fun o => o.remove = false)).map TickOut.war) →
        w2 ∈ (((s.wars.map (tickWar cfg c)).filter
          (fun o => o.remove = false)).map TickOut.war) →
        belligerent p w1 → belligerent p w2 →
        GetPhase w1 t ≠ WarPhase.None → GetPhase w2 t ≠ WarPhase.None → w1 = w2 := by
      intro t ht p w1 w2 h1 h2 hb1 hb2 hp1 hp2
      obtain ⟨u1, hu1, rfl⟩ := hkmem w1 h1
      obtain ⟨u2, hu2, rfl⟩ := hkmem w2 h2
      have e : u1 = u2 := by
        refine inv.excl t ht p u1 u2 hu1 hu2 ?_ ?_
          (tickWar_phase_shrink cfg c u1 t hp1) (tickWar_phase_shrink cfg c u2 t hp2)
        · unfold belligerent at hb1 ⊢
          rw [(tickWar_tribes cfg c u1).1, (tickWar_tribes cfg c u1).2] at hb1
          exact hb1
        · unfold belligerent at hb2 ⊢
          rw [(tickWar_tribes cfg c u2).1, (tickWar_tribes cfg c u2).2] at hb2
          exact hb2
      rw [e]
    first
    | -- branch with removals: the index is rebuilt at the current clock
      (refine ⟨inv.next_pos, ?_, ?_, ?_, ?_, hexcl2⟩
       · intro w2 hw2
         obtain ⟨w, hw0, rfl⟩ := hkmem w2 hw2
         show 1 ≤ _ ∧ _ < s.next_war_id
         rw [tickWar_war_id]
         exact inv.ids_pos w hw0
       · exact List.Nodup.sublist hids inv.ids_nodup
       · intro p id h
         obtain ⟨w, hwm, hwid, hb, -⟩ := rebuild_sound h
         exact ⟨w, hwm, hwid, hb⟩
       · intro w2 hw2 hph2
         have huniq : ∀ q u1 u2,
             u1 ∈ (((s.wars.map (tickWar cfg c)).filter
               (fun o => o.remove = false)).map TickOut.war) →
             u2 ∈ (((s.wars.map (tickWar cfg c)).filter
               (fun o => o.remove = false)).map TickOut.war) →
             belligerent q u1 → belligerent q u2 →
             GetPhase u1 c ≠ WarPhase.None → GetPhase u2 c ≠ WarPhase.None →
             u1.war_id = u2.war_id := by
           intro q u1 u2 h1 h2 hb1 hb2 hq1 hq2
           rw [hexcl2 c le_rfl q u1 u2 h1 h2 hb1 hb2 hq1 hq2]
         exact ⟨rebuild_complete huniq hw2 hph2 (Or.inl rfl),
           rebuild_complete huniq hw2 hph2 (Or.inr rfl)⟩)
    | -- branch without removals: the index is left in place
      (have hall : ∀ o ∈ s.wars.map (tickWar cfg c), o.remove = false := by
         intro o ho
         by_contra hcon
         exact hrem (List.any_eq_true.mpr ⟨o, ho, by simpa using hcon⟩)
       refine ⟨inv.next_pos, ?_, ?_, ?_, ?_, hexcl2⟩
       · intro w2 hw2
         obtain ⟨w, hw0, rfl⟩ := hkmem w2 hw2
         show 1 ≤ _ ∧ _ < s.next_war_id
         rw [tickWar_war_id]
         exact inv.ids_pos w hw0
       · exact List.Nodup.sublist hids inv.ids_nodup
       · intro p id h
         obtain ⟨w, hw0, hwid, hb⟩ := inv.idx_sound p id h
         refine ⟨(tickWar cfg c w).war, ?_, ?_, ?_⟩
         · refine List.mem_map.mpr ⟨tickWar cfg c w, ?_, rfl⟩
           refine List.mem_filter.mpr ⟨List.mem_map_of_mem _ hw0, ?_⟩
           simp [hall _ (List.mem_map_of_mem _ hw0)]
         · rw [tickWar_war_id]
           exact hwid
         · unfold belligerent at hb ⊢
           rw [(tickWar_tribes cfg c w).1, (tickWar_tribes cfg c w).2]
           exact hb
       · intro w2 hw2 hph2
         obtain ⟨w, hw0, rfl⟩ := hkmem w2 hw2
         have hphw : GetPhase w c ≠ WarPhase.None :=
           tickWar_phase_shrink cfg c w c hph2
         have := inv.idx_complete w hw0 hphw
         rw [tickWar_war_id, (tickWar_tribes cfg c w).1, (tickWar_tribes cfg c w).2]
         exact this)
  }

/-- Every state reachable through the engine lifecycle satisfies the
store invariant at its clock. -/
theorem Reachable_Inv {cfg : Config} {s : Store} {c : Int}
    (h : Reachable cfg s c) : Inv s c := by
  induction h with
  | init c => exact Inv_empty c
  | advance c2 h hle ih => exact Inv_advance ih hle
  | declare env a b h hok ih => exact Inv_declare ih hok
  | seed h hst hemp ha hb hab ih => exact Inv_seed ih hemp
  | reqCancel p h ih => exact Inv_reqCancel ih p
  | accCancel p h ih => exact Inv_accCancel ih p
  | tick h ih => exact Inv_tick ih

/-! ### Concrete scenario material -/

/-- A benign oracle environment for the concrete scenarios: server ready,
no alliances, every leader online. -/
def scenarioEnv : Env :=
  { serverReady := true, allied := fun _ _ => false, leaderOnline := fun _ => true }

/-- The scenario configuration: a one-hour delay and a one-hour cooldown,
no self test. -/
def scenarioCfg : Config :=
  { war_delay_seconds := 3600, cooldown_seconds := 3600 }

/-- The store after declare(10, 20) at time 100 on the empty store. -/
def declaredStore : Store :=
  (DeclareWar scenarioCfg emptyStore 10 20 100).store

/-- The store after requestCancel(10) and acceptCancel(20) at time 200:
the war of `declaredStore` is finalized with cooldowns until 3800. -/
def canceledStore : Store :=
  (AcceptCancelWar scenarioCfg (RequestCancelWar declaredStore 10).store 20 200).store

/-- The store after a second declare(10, 30) at time 3800, when the first
record is phase-None but still present (no tick has cleaned it up). -/
def secondStore : Store :=
  (DeclareWar scenarioCfg canceledStore 10 30 3800).store

/-- A list whose mapped war ids are distinct and whose members are all
equal has at most one entry. -/
theorem length_le_one_of_ids_nodup {l : List WarRecord}
    (hnd : (l.map WarRecord.war_id).Nodup)
    (hall : ∀ a ∈ l, ∀ b ∈ l, a = b) : l.length ≤ 1 := by
  match l with
  | [] => simp
  | [a] => simp
  | a :: b :: rest =>
    exfalso
    have hab : a = b := hall a (by simp) b (by simp)
    rw [List.map_cons, List.map_cons, List.nodup_cons] at hnd
    exact hnd.1 (by simp [hab])

/-! ### Claim C1 (corrected) -/

/-- Claim C1, as stated, is false: the mutual-exclusivity property does
not hold for arbitrary times `t`.  After declare(10,20) at 100, mutual
cancellation at 200 and a second declare(10,30) at 3800 (legitimately
allowed, because the first record is phase-None at 3800), the store
reachably holds two distinct records that both have party 10 as a
belligerent and both have a non-None phase at the past time t = 200 (the
first is in Cooldown until 3800, the second is Pending at every time
before its start). -/
theorem C1_counterexample :
    ∃ s c, Reachable scenarioCfg s c ∧
      ∃ w1, w1 ∈ s.wars ∧ ∃ w2, w2 ∈ s.wars ∧ w1 ≠ w2 ∧
        belligerent 10 w1 ∧ belligerent 10 w2 ∧
        GetPhase w1 200 ≠ WarPhase.None ∧ GetPhase w2 200 ≠ WarPhase.None := by
  refine ⟨secondStore, 3800, ?_, ?_⟩
  · have h0 : Reachable scenarioCfg emptyStore 100 := .init 100
    have h1 : Reachable scenarioCfg declaredStore 100 :=
      .declare scenarioEnv 10 20 h0 rfl
    have h2 : Reachable scenarioCfg (RequestCancelWar declaredStore 10).store 100 :=
      .reqCancel 10 h1
    have h3 : Reachable scenarioCfg (RequestCancelWar declaredStore 10).store 200 :=
      .advance 200 h2 (by norm_num)
    have h4 : Reachable scenarioCfg canceledStore 200 := .accCancel 20 h3
    have h5 : Reachable scenarioCfg canceledStore 3800 := .advance 3800 h4 (by norm_num)
    exact .declare scenarioEnv 10 30 h5 rfl
  · refine ⟨⟨1, 10, 20, 100, 3700, 200, 3800, 3800, false, false, false, false⟩,
      by decide, ⟨2, 10, 30, 3800, 7400, 0, 0, 0, false, false, false, false⟩,
      by decide, by decide, by decide, by decide, by decide, by decide⟩

/-- Claim C1 amended: at every reachable store state, for every time `t`
not earlier than the clock at which the state was reached, each party id
appears as a belligerent in at most one record whose phase at `t` is
non-None (for past times the property can fail, see the counterexample).
The scenario half holds as stated: declare(10,20) on the empty store is
allowed; an immediate declare(10,30) or declare(40,20) is rejected with
the busy reason, and since every declaration call site only inserts after
IsWarAllowed passes, the store still holds exactly one record. -/
theorem C1_amended_mutual_exclusivity :
    (∀ (cfg : Config) (s : Store) (c : Int), Reachable cfg s c → ∀ t, c ≤ t → ∀ p,
      (s.wars.filter (fun w => decide (belligerent p w) &&
        decide (GetPhase w t ≠ WarPhase.None))).length ≤ 1) ∧
    IsWarAllowed scenarioEnv emptyStore 10 20 100 = .ok () ∧
    IsWarAllowed scenarioEnv declaredStore 10 30 100 = .error .busy ∧
    IsWarAllowed scenarioEnv declaredStore 40 20 100 = .error .busy ∧
    declaredStore.wars.length = 1 := by
  refine ⟨?_, rfl, rfl, rfl, by decide⟩
  intro cfg s c hreach t ht p
  have inv := Reachable_Inv hreach
  refine length_le_one_of_ids_nodup ?_ ?_
  · exact List.Nodup.sublist (List.Sublist.map _ (List.filter_sublist _)) inv.ids_nodup
  · intro a ha b hb
    obtain ⟨hma, hpa⟩ := List.mem_filter.mp ha
    obtain ⟨hmb, hpb⟩ := List.mem_filter.mp hb
    simp only [Bool.and_eq_true, decide_eq_true_eq] at hpa hpb
    exact inv.excl t ht p a b hma hmb hpa.1 hpb.1 hpa.2 hpb.2

/-- Witness for the amended C1: the state after declare(10,20) at 100 is
reachable, and at its own clock party 10 has exactly one visible record. -/
theorem C1_witness :
    Reachable scenarioCfg declaredStore 100 ∧
      (declaredStore.wars.filter (fun w => decide (belligerent 10 w) &&
        decide (GetPhase w 100 ≠ WarPhase.None))).length ≤ 1 := by
  have h1 : Reachable scenarioCfg declaredStore 100 :=
    .declare scenarioEnv 10 20 (.init 100) rfl
  exact ⟨h1, C1_amended_mutual_exclusivity.1 scenarioCfg declaredStore 100 h1 100
    le_rfl 10⟩

/-! ### Claim C2 (confirmed) -/

/-- Claim C2: the phase of a record at a time is computed by the stated
case analysis.  Purity and determinism hold by construction: `GetPhase`
is a mathematical function of the record and the time, mirroring the
side-effect-free source function. -/
theorem C2_phase_pure_function (war : WarRecord) (now : Int) :
    (war.war_id = 0 → GetPhase war now = WarPhase.None) ∧
    (war.war_id ≠ 0 → war.ended_at = 0 → now < war.start_at →
      GetPhase war now = WarPhase.Pending) ∧
    (war.war_id ≠ 0 → war.ended_at = 0 → war.start_at ≤ now →
      GetPhase war now = WarPhase.Active) ∧
    (war.war_id ≠ 0 → war.ended_at ≠ 0 →
      (now < war.cooldown_end_a ∨ now < war.cooldown_end_b) →
      GetPhase war now = WarPhase.Cooldown) ∧
    (war.war_id ≠ 0 → war.ended_at ≠ 0 → war.cooldown_end_a ≤ now →
      war.cooldown_end_b ≤ now → GetPhase war now = WarPhase.None) := by
  unfold GetPhase
  refine ⟨fun h => by rw [if_pos h], ?_, ?_, ?_, ?_⟩
  · intro h1 h2 h3
    rw [if_neg h1, if_pos h2, if_pos h3]
  · intro h1 h2 h3
    rw [if_neg h1, if_pos h2, if_neg (by omega)]
  · intro h1 h2 h3
    rw [if_neg h1, if_neg h2, if_pos h3]
  · intro h1 h2 h3 h4
    rw [if_neg h1, if_neg h2, if_neg (by omega)]

/-- Witness for C2 at a concrete record: a fresh record is Pending before
its start, Active after, and the ended record is in Cooldown before its
cooldown ends and None after them. -/
theorem C2_witness :
    GetPhase ⟨1, 10, 20, 100, 3700, 0, 0, 0, false, false, false, false⟩ 100 =
      WarPhase.Pending ∧
    GetPhase ⟨1, 10, 20, 100, 3700, 0, 0, 0, false, false, false, false⟩ 3700 =
      WarPhase.Active ∧
    GetPhase ⟨1, 10, 20, 100, 3700, 200, 3800, 3800, false, false, false, false⟩ 200 =
      WarPhase.Cooldown ∧
    GetPhase ⟨1, 10, 20, 100, 3700, 200, 3800, 3800, false, false, false, false⟩ 3800 =
      WarPhase.None :=
  ⟨(C2_phase_pure_function _ 100).2.1 (by decide) (by decide) (by decide),
   (C2_phase_pure_function _ 3700).2.2.1 (by decide) (by decide) (by decide),
   (C2_phase_pure_function _ 200).2.2.2.1 (by decide) (by decide) (by decide),
   (C2_phase_pure_function _ 3800).2.2.2.2 (by decide) (by decide) (by decide) (by decide)⟩

/-! ### Claim C7 (corrected) -/

/-- Claim C7, as stated, is false: a record that is live and not expired
at save time can still be dropped on load by the age bound.  The record
below was declared at time 5, ended at 19000 and is in Cooldown at the
load time 20000 (its cooldowns run to 22600), yet LoadData discards it
because its age 19995 exceeds twice the cooldown plus one hour (10800
with the scenario configuration), so the loaded store is empty. -/
theorem C7_counterexample :
    GetPhase ⟨1, 10, 20, 5, 10, 19000, 22600, 22600, false, false, false, false⟩
      20000 = WarPhase.Cooldown ∧
    (LoadData scenarioCfg
      (SaveData ⟨2, [⟨1, 10, 20, 5, 10, 19000, 22600, 22600,
        false, false, false, false⟩], []⟩) 20000).wars = [] := by
  decide

/-- Claim C7 amended: save followed by load preserves the counter, keeps
every record whose war id is positive, whose parties are non-zero and
which, when ended, has neither a fully elapsed positive cooldown pair nor
an age beyond the safety bound of twice the cooldown plus one hour — with
identical field values, assuming the stored tribe ids are canonical, as
every record created by the engine has — and loads nothing else. -/
theorem C7_round_trip_amended (cfg : Config) (s : Store) (now : Int)
    (hcanon : ∀ w ∈ s.wars, CanonicalTribeId w.tribe_a = w.tribe_a ∧
      CanonicalTribeId w.tribe_b = w.tribe_b) :
    (LoadData cfg (SaveData s) now).next_war_id = s.next_war_id ∧
    (∀ w ∈ s.wars,
      0 < w.war_id → w.tribe_a ≠ 0 → w.tribe_b ≠ 0 →
      (w.ended_at ≠ 0 →
        ¬ (0 < w.cooldown_end_a ∧ 0 < w.cooldown_end_b ∧
          w.cooldown_end_a ≤ now ∧ w.cooldown_end_b ≤ now) ∧
        ¬ (0 < w.declared_at ∧ cfg.cooldown_seconds * 2 + 3600 < now - w.declared_at)) →
      w ∈ (LoadData cfg (SaveData s) now).wars) ∧
    (∀ w ∈ (LoadData cfg (SaveData s) now).wars, w ∈ s.wars ∧ loadKeep cfg now w = true) := by
  have hcanw : ∀ w ∈ s.wars,
      ({ w with
          tribe_a := CanonicalTribeId w.tribe_a
          tribe_b := CanonicalTribeId w.tribe_b } : WarRecord) = w := by
    intro w hw
    rw [(hcanon w hw).1, (hcanon w hw).2]
  refine ⟨rfl, ?_, ?_⟩
  · intro w hw hid hta htb hended
    simp only [LoadData, SaveData]
    refine List.mem_filter.mpr ⟨?_, ?_⟩
    · have hmm := List.mem_map_of_mem
        (fun w => ({ w with
          tribe_a := CanonicalTribeId w.tribe_a
          tribe_b := CanonicalTribeId w.tribe_b } : WarRecord)) hw
      dsimp only at hmm
      rwa [hcanw w hw] at hmm
    · simp only [loadKeep]
      rw [if_neg (by omega)]
      rw [if_neg (by tauto)]
      by_cases he : w.ended_at ≠ 0
      · rw [if_pos he, if_neg (hended he).1, if_neg (hended he).2]
      · rw [if_neg he]
  · intro w hw
    simp only [LoadData, SaveData] at hw
    obtain ⟨hmem, hkeep⟩ := List.mem_filter.mp hw
    obtain ⟨u, hu, he⟩ := List.mem_map.mp hmem
    rw [hcanw u hu] at he
    rw [← he]
    exact ⟨hu, he ▸ hkeep⟩

/-- Witness for the amended C7: the store after the mutual cancellation
round-trips at time 300 — the counter is preserved and the finalized
record survives the load with identical values. -/
theorem C7_witness :
    (LoadData scenarioCfg (SaveData canceledStore) 300).next_war_id =
      canceledStore.next_war_id ∧
    (⟨1, 10, 20, 100, 3700, 200, 3800, 3800, false, false, false, false⟩ :
      WarRecord) ∈ (LoadData scenarioCfg (SaveData canceledStore) 300).wars :=
  ⟨(C7_round_trip_amended scenarioCfg canceledStore 300 (by decide)).1,
   (C7_round_trip_amended scenarioCfg canceledStore 300 (by decide)).2.1 _
     (by decide) (by decide) (by decide) (by decide) (by decide)⟩

/-! ### Claim C8 (corrected) -/

/-- Claim C8, as stated, is false at a concrete run: with the dirty flag
set and the last write at time 100, the flush at time 110 is skipped
because the 30-second interval has not elapsed, but the
`need_save.exchange(false)` that runs first has already cleared the dirty
flag, so a later flush at time 131 — past the interval and without any
new mutation — performs no write either, contradicting the claim that
the dirty state is not lost. -/
theorem C8_counterexample :
    (FlushSaveIfNeeded ⟨true, 100⟩ 110).2 = false ∧
    (FlushSaveIfNeeded ⟨true, 100⟩ 110).1 = ⟨false, 100⟩ ∧
    (FlushSaveIfNeeded (FlushSaveIfNeeded ⟨true, 100⟩ 110).1 131).2 = false := by
  decide

/-- Claim C8 amended: the flush writes exactly when the dirty flag was
set on entry and at least 30 seconds have passed since the last write;
but the dirty flag is cleared by every flush call, so a write skipped for
the interval loses the dirty state: every later flush performs no write
until a new mutation marks the store dirty again. -/
theorem C8_flush_amended (st : FlushState) (now : Int) :
    ((FlushSaveIfNeeded st now).2 = true ↔
      st.need_save = true ∧ 30 ≤ now - st.last_save) ∧
    (FlushSaveIfNeeded st now).1.need_save = false ∧
    (st.need_save = true → now - st.last_save < 30 →
      ∀ now2, (FlushSaveIfNeeded (FlushSaveIfNeeded st now).1 now2).2 = false) := by
  refine ⟨?_, ?_, ?_⟩
  · simp only [FlushSaveIfNeeded]
    split_ifs with h1 h2
    · simp only [h1]
      constructor
      · intro h; cases h
      · intro h; cases h.1
    · constructor
      · intro h; cases h
      · intro h; omega
    · simp only [true_iff]
      refine ⟨?_, by omega⟩
      cases hns : st.need_save
      · exact absurd hns h1
      · rfl
  · simp only [FlushSaveIfNeeded]
    split_ifs <;> rfl
  · intro hd hlt now2
    have h1 : FlushSaveIfNeeded st now = (⟨false, st.last_save⟩, false) := by
      simp only [FlushSaveIfNeeded]
      rw [if_neg (by simp [hd]), if_pos (by simpa using hlt)]
    rw [h1]
    simp [FlushSaveIfNeeded]

/-- Witness for the amended C8 at the concrete skipped flush: the dirty
flag is cleared and the later flush at 131 writes nothing. -/
theorem C8_witness :
    (FlushSaveIfNeeded ⟨true, 100⟩ 110).1.need_save = false ∧
    (FlushSaveIfNeeded (FlushSaveIfNeeded ⟨true, 100⟩ 110).1 131).2 = false :=
  ⟨(C8_flush_amended ⟨true, 100⟩ 110).2.1,
   (C8_flush_amended ⟨true, 100⟩ 110).2.2 rfl (by decide) 131⟩

/-! ### Helper lemmas for the cancellation commands -/

theorem find_updateWar {wars : List WarRecord}
    (hnd : (wars.map WarRecord.war_id).Nodup) {war v : WarRecord}
    (hw : war ∈ wars) (hv : v.war_id = war.war_id) :
    (updateWar wars war.war_id v).find? (fun x => x.war_id = war.war_id) = some v := by
  induction wars with
  | nil => cases hw
  | cons h rest ih =>
    rw [List.map_cons, List.nodup_cons] at hnd
    unfold updateWar
    rw [List.map_cons]
    by_cases hh : h.war_id = war.war_id
    · rw [if_pos hh]
      exact List.find?_cons_of_pos _ (by simp [hv])
    · rw [if_neg hh]
      rw [List.find?_cons_of_neg _ (by simp [hh])]
      rcases List.mem_cons.mp hw with heq | hw2
      · exact absurd (by rw [heq]) hh
      · exact ih hnd.2 hw2

theorem mem_updateWar_of_ne {wars : List WarRecord} {id : Int} {v w : WarRecord}
    (hw : w ∈ wars) (hne : w.war_id ≠ id) : w ∈ updateWar wars id v := by
  have := @updateWar_mem wars id v w hw
  rwa [if_neg hne] at this

theorem updateWar_idem {wars : List WarRecord} {id : Int} {v : WarRecord}
    (hv : v.war_id = id) :
    updateWar (updateWar wars id v) id v = updateWar wars id v := by
  unfold updateWar
  rw [List.map_map]
  refine List.map_congr_left ?_
  intro w _
  by_cases hh : w.war_id = id
  · simp [hh, hv]
  · simp [hh]

/-- Evaluation of AcceptCancelWar past the lookup and the ended check:
with an indexed ongoing war the remaining behaviour is the flag update
and the possible finalization. -/
theorem AcceptCancelWar_step (cfg : Config) {s : Store} {p : Int} (now : Int)
    {war : WarRecord}
    (hlk : GetWarForTribeLocked s (CanonicalTribeId p) = some war)
    (hend : war.ended_at = 0) :
    AcceptCancelWar cfg s p now =
      (let tid := CanonicalTribeId p
       let war1 :=
         if tid = war.tribe_a then { war with cancel_requested_by_a := true }
         else if tid = war.tribe_b then { war with cancel_requested_by_b := true }
         else war
       if ¬ (war1.cancel_requested_by_a ∧ war1.cancel_requested_by_b) then
         ⟨{ s with wars := updateWar s.wars war.war_id war1 }, [], false⟩
       else
         let war2 :=
           { war1 with
             ended_at := now
             cooldown_end_a := now + cfg.cooldown_seconds
             cooldown_end_b := now + cfg.cooldown_seconds
             cancel_requested_by_a := false
             cancel_requested_by_b := false
             cooldown_notified := false }
         let wars2 := updateWar s.wars war.war_id war2
         ⟨{ next_war_id := s.next_war_id
            wars := wars2
            index := RebuildTribeIndexLocked wars2 now },
          [⟨war2.tribe_a, Msg.warCanceled cfg.cooldown_seconds⟩,
           ⟨war2.tribe_b, Msg.warCanceled cfg.cooldown_seconds⟩], true⟩) := by
  simp only [AcceptCancelWar, hlk]
  rw [if_neg (show ¬ war.ended_at ≠ 0 from fun hh => hh hend)]

/-! ### Claim C3 (confirmed) -/

/-- Claim C3: acceptCancel on a party whose indexed war is ongoing sets
that party's own cancel flag; when both flags are then set it finalizes
the war — endedAt becomes now, both cooldown ends become
now + cooldownSeconds, both cancel flags and the cooldown-notified guard
are cleared, the store is marked dirty and both sides receive the
cancellation message carrying the cooldown duration — while every other
record is untouched.  When only one flag is set after the call, the only
state change is that flag: the rest of the record, the index, the counter
and the dirty flag are unchanged and nothing is sent. -/
theorem C3_accept_cancel (cfg : Config) (s : Store) (p now : Int) (war : WarRecord)
    (hnd : (s.wars.map WarRecord.war_id).Nodup)
    (hlk : GetWarForTribeLocked s (CanonicalTribeId p) = some war)
    (hend : war.ended_at = 0)
    (hbel : CanonicalTribeId p = war.tribe_a ∨ CanonicalTribeId p = war.tribe_b) :
    (let flagged := if CanonicalTribeId p = war.tribe_a
        then { war with cancel_requested_by_a := true }
        else { war with cancel_requested_by_b := true }
     let r := AcceptCancelWar cfg s p now
     (flagged.cancel_requested_by_a = true → flagged.cancel_requested_by_b = true →
       r.store.wars.find? (fun x => x.war_id = war.war_id) = some
         { war with
           ended_at := now
           cooldown_end_a := now + cfg.cooldown_seconds
           cooldown_end_b := now + cfg.cooldown_seconds
           cancel_requested_by_a := false
           cancel_requested_by_b := false
           cooldown_notified := false } ∧
       r.dirty = true ∧
       r.notes = [⟨war.tribe_a, Msg.warCanceled cfg.cooldown_seconds⟩,
         ⟨war.tribe_b, Msg.warCanceled cfg.cooldown_seconds⟩] ∧
       (∀ v ∈ s.wars, v.war_id ≠ war.war_id → v ∈ r.store.wars)) ∧
     (¬ (flagged.cancel_requested_by_a = true ∧ flagged.cancel_requested_by_b = true) →
       r.store.wars.find? (fun x => x.war_id = war.war_id) = some flagged ∧
       r.store.index = s.index ∧ r.store.next_war_id = s.next_war_id ∧
       r.notes = [] ∧ r.dirty = false ∧
       (∀ v ∈ s.wars, v.war_id ≠ war.war_id → v ∈ r.store.wars))) := by
  have hw := mem_of_locked hlk
  dsimp only
  rw [AcceptCancelWar_step cfg now hlk hend]
  dsimp only
  by_cases hba : CanonicalTribeId p = war.tribe_a
  · rw [if_pos hba, if_pos hba]
    split_ifs with hboth
    · refine ⟨fun _ _ => ⟨find_updateWar hnd hw rfl, rfl, rfl,
        fun v hv hne => mem_updateWar_of_ne hv hne⟩,
        fun hno => absurd ⟨by simpa using hboth.1, by simpa using hboth.2⟩ hno⟩
    · refine ⟨fun hfa hfb => absurd ⟨by simpa using hfa, by simpa using hfb⟩ hboth,
        fun _ => ⟨find_updateWar hnd hw rfl, rfl, rfl, rfl, rfl,
          fun v hv hne => mem_updateWar_of_ne hv hne⟩⟩
  · have hbb : CanonicalTribeId p = war.tribe_b := by tauto
    rw [if_neg hba, if_neg hba, if_pos hbb]
    split_ifs with hboth
    · refine ⟨fun _ _ => ⟨find_updateWar hnd hw rfl, rfl, rfl,
        fun v hv hne => mem_updateWar_of_ne hv hne⟩,
        fun hno => absurd ⟨by simpa using hboth.1, by simpa using hboth.2⟩ hno⟩
    · refine ⟨fun hfa hfb => absurd ⟨by simpa using hfa, by simpa using hfb⟩ hboth,
        fun _ => ⟨find_updateWar hnd hw rfl, rfl, rfl, rfl, rfl,
          fun v hv hne => mem_updateWar_of_ne hv hne⟩⟩

/-- Witness for C3 on the declared scenario store: acceptCancel(10)
before any request records only the side-10 flag, leaves the dirty flag
unset and sends nothing. -/
theorem C3_witness :
    (AcceptCancelWar scenarioCfg declaredStore 10 150).store.wars.find?
      (fun x => x.war_id = 1) =
      some ⟨1, 10, 20, 100, 3700, 0, 0, 0, true, false, false, false⟩ ∧
    (AcceptCancelWar scenarioCfg declaredStore 10 150).notes = [] ∧
    (AcceptCancelWar scenarioCfg declaredStore 10 150).dirty = false := by
  have h := C3_accept_cancel scenarioCfg declaredStore 10 150
    ⟨1, 10, 20, 100, 3700, 0, 0, 0, false, false, false, false⟩
    (by decide) (by decide) rfl (Or.inl rfl)
  exact ⟨(h.2 (by decide)).1, (h.2 (by decide)).2.2.2.1, (h.2 (by decide)).2.2.2.2.1⟩

theorem locked_after_update {s : Store} {tid : Int} {war v : WarRecord}
    (hnd : (s.wars.map WarRecord.war_id).Nodup)
    (hlk : GetWarForTribeLocked s tid = some war)
    (hv : v.war_id = war.war_id) :
    GetWarForTribeLocked { s with wars := updateWar s.wars war.war_id v } tid =
      some v := by
  have hw : war ∈ s.wars := mem_of_locked hlk
  unfold GetWarForTribeLocked at hlk ⊢
  dsimp only
  cases hidx : idxGet s.index tid with
  | none => rw [hidx] at hlk; cases hlk
  | some id0 =>
    rw [hidx] at hlk
    dsimp only at hlk ⊢
    have hid0 : war.war_id = id0 := by simpa using List.find?_some hlk
    rw [← hid0]
    exact find_updateWar hnd hw hv

/-- Evaluation of RequestCancelWar past the lookup and the ended check. -/
theorem RequestCancelWar_step {s : Store} {p : Int} {war : WarRecord}
    (hlk : GetWarForTribeLocked s (CanonicalTribeId p) = some war)
    (hend : war.ended_at = 0) :
    RequestCancelWar s p =
      (let tid := CanonicalTribeId p
       let war1 :=
         if tid = war.tribe_a then { war with cancel_requested_by_a := true }
         else if tid = war.tribe_b then { war with cancel_requested_by_b := true }
         else war
       let other := if tid = war.tribe_a then war.tribe_b else war.tribe_a
       ⟨{ s with wars := updateWar s.wars war.war_id war1 },
        [⟨other, Msg.cancelIncoming⟩, ⟨tid, Msg.cancelSent⟩], true⟩) := by
  simp only [RequestCancelWar, hlk]
  rw [if_neg (show ¬ war.ended_at ≠ 0 from fun hh => hh hend)]

/-! ### Claim C6 (confirmed) -/

/-- Claim C6: requestCancel is a complete no-op — store untouched, no
message, no dirty mark — when the party has no indexed war or when its
war is already ended; otherwise it sets exactly the calling side's cancel
flag, leaves every other record and field untouched, marks dirty and
notifies both sides, and calling it again leaves the store in the same
state as the single call. -/
theorem C6_request_cancel (s : Store) (p : Int) :
    (GetWarForTribeLocked s (CanonicalTribeId p) = none →
      RequestCancelWar s p = ⟨s, [], false⟩) ∧
    (∀ war, GetWarForTribeLocked s (CanonicalTribeId p) = some war →
      war.ended_at ≠ 0 → RequestCancelWar s p = ⟨s, [], false⟩) ∧
    (∀ war, (s.wars.map WarRecord.war_id).Nodup →
      GetWarForTribeLocked s (CanonicalTribeId p) = some war → war.ended_at = 0 →
      (CanonicalTribeId p = war.tribe_a ∨ CanonicalTribeId p = war.tribe_b) →
      (let flagged := if CanonicalTribeId p = war.tribe_a
          then { war with cancel_requested_by_a := true }
          else { war with cancel_requested_by_b := true }
       let r := RequestCancelWar s p
       r.store.wars.find? (fun x => x.war_id = war.war_id) = some flagged ∧
       (∀ v ∈ s.wars, v.war_id ≠ war.war_id → v ∈ r.store.wars) ∧
       r.store.index = s.index ∧ r.store.next_war_id = s.next_war_id ∧
       r.dirty = true ∧
       r.notes = [⟨(if CanonicalTribeId p = war.tribe_a then war.tribe_b
          else war.tribe_a), Msg.cancelIncoming⟩,
          ⟨CanonicalTribeId p, Msg.cancelSent⟩] ∧
       (RequestCancelWar r.store p).store = r.store)) := by
  refine ⟨?_, ?_, ?_⟩
  · intro h
    simp only [RequestCancelWar, h]
  · intro war hlk hend
    simp only [RequestCancelWar, hlk]
    rw [if_pos hend]
  · intro war hnd hlk hend hbel
    dsimp only
    rw [RequestCancelWar_step hlk hend]
    dsimp only
    by_cases hba : CanonicalTribeId p = war.tribe_a
    · rw [if_pos hba, if_pos hba, if_pos hba]
      refine ⟨find_updateWar hnd (mem_of_locked hlk) rfl,
        fun v hv hne => mem_updateWar_of_ne hv hne, rfl, rfl, rfl, rfl, ?_⟩
      have hlk2 := locked_after_update
        (v := { war with cancel_requested_by_a := true }) hnd hlk rfl
      rw [RequestCancelWar_step hlk2 hend]
      dsimp only
      rw [if_pos hba]
      rw [@updateWar_idem s.wars war.war_id
        ({ war with cancel_requested_by_a := true }) rfl]
    · have hbb : CanonicalTribeId p = war.tribe_b := by tauto
      rw [if_neg hba, if_pos hbb, if_neg hba, if_neg hba]
      refine ⟨find_updateWar hnd (mem_of_locked hlk) rfl,
        fun v hv hne => mem_updateWar_of_ne hv hne, rfl, rfl, rfl, rfl, ?_⟩
      have hlk2 := locked_after_update
        (v := { war with cancel_requested_by_b := true }) hnd hlk rfl
      rw [RequestCancelWar_step hlk2 hend]
      dsimp only
      rw [if_neg hba, if_pos hbb]
      rw [@updateWar_idem s.wars war.war_id
        ({ war with cancel_requested_by_b := true }) rfl]

/-- Witness for C6 on concrete stores: requestCancel(10) with an ended
war is a no-op, and on the fresh declared store it records exactly the
side-10 flag and is idempotent. -/
theorem C6_witness :
    RequestCancelWar canceledStore 10 = ⟨canceledStore, [], false⟩ ∧
    (RequestCancelWar declaredStore 10).store.wars.find?
      (fun x => x.war_id = 1) =
      some ⟨1, 10, 20, 100, 3700, 0, 0, 0, true, false, false, false⟩ ∧
    (RequestCancelWar (RequestCancelWar declaredStore 10).store 10).store =
      (RequestCancelWar declaredStore 10).store := by
  have h := C6_request_cancel declaredStore 10
  have hc := (C6_request_cancel canceledStore 10).2.1
    ⟨1, 10, 20, 100, 3700, 200, 3800, 3800, false, false, false, false⟩
    (by decide) (by decide)
  have h3 := h.2.2 ⟨1, 10, 20, 100, 3700, 0, 0, 0, false, false, false, false⟩
    (by decide) (by decide) rfl (Or.inl rfl)
  exact ⟨hc, h3.1, h3.2.2.2.2.2.2⟩

/-! ### Claim C5: notification idempotence machinery -/

/-- A note is the war-started message. -/
def isStartNote (n : Note) : Bool := n.msg = Msg.warStarted

/-- A note is the cooldown-ended message. -/
def isCdNote (n : Note) : Bool := n.msg = Msg.cooldownEnded

/-- The tick emits the war-started pair for this record now. -/
def emitsStart (cfg : Config) (now : Int) (w : WarRecord) : Bool :=
  (tickWar cfg now w).notes.any isStartNote

/-- The tick emits the cooldown-ended pair for this record now. -/
def emitsCd (cfg : Config) (now : Int) (w : WarRecord) : Bool :=
  (tickWar cfg now w).notes.any isCdNote

/-- A sequence of ticks over one record (absent once removed), counting
the ticks that emitted the war-started pair and the cooldown-ended pair. -/
def runTicks (cfg : Config) : List Int → Option WarRecord →
    Option WarRecord × Nat × Nat
  | [], ow => (ow, 0, 0)
  | _ :: ts, none => runTicks cfg ts none
  | t :: ts, some w =>
    let o := tickWar cfg t w
    let next := if o.remove then none else some o.war
    let r := runTicks cfg ts next
    (r.1, (if o.notes.any isStartNote then 1 else 0) + r.2.1,
      (if o.notes.any isCdNote then 1 else 0) + r.2.2)

theorem tickSelfTest_fields (cfg : Config) (now : Int) (w : WarRecord) :
    (tickSelfTest cfg now w).war_id = w.war_id ∧
      (tickSelfTest cfg now w).tribe_a = w.tribe_a ∧
      (tickSelfTest cfg now w).tribe_b = w.tribe_b ∧
      (tickSelfTest cfg now w).start_at = w.start_at ∧
      (tickSelfTest cfg now w).start_notified = w.start_notified := by
  unfold tickSelfTest
  split_ifs <;> simp_all

theorem tickStart_fields (now : Int) (w : WarRecord) :
    (tickStart now w).1.ended_at = w.ended_at ∧
      (tickStart now w).1.cooldown_end_a = w.cooldown_end_a ∧
      (tickStart now w).1.cooldown_end_b = w.cooldown_end_b ∧
      (tickStart now w).1.cooldown_notified = w.cooldown_notified ∧
      (tickStart now w).1.start_at = w.start_at := by
  unfold tickStart
  split_ifs <;> simp_all

/-- The skip guard evaluates the tick to the identity. -/
theorem tickWar_of_guard (cfg : Config) (now : Int) {w : WarRecord}
    (hg : w.war_id = 0 ∨ w.tribe_a = 0 ∨ w.tribe_b = 0) :
    tickWar cfg now w = ⟨w, [], false, false⟩ := by
  unfold tickWar
  rw [if_pos hg]

/-- The tick emits the war-started pair exactly when the record passes
the guard, its normalized start has been reached, it is not ended and the
start guard flag is clear. -/
theorem emitsStart_iff (cfg : Config) (now : Int) (w : WarRecord) :
    emitsStart cfg now w = true ↔
      (¬ (w.war_id = 0 ∨ w.tribe_a = 0 ∨ w.tribe_b = 0) ∧
        w.ended_at = 0 ∧ (normalizeStart cfg now w).start_at ≤ now ∧
        w.start_notified = false) := by
  have hnf := normalizeStart_fields cfg now w
  unfold emitsStart
  by_cases hg : w.war_id = 0 ∨ w.tribe_a = 0 ∨ w.tribe_b = 0
  · rw [tickWar_of_guard cfg now hg]
    simp [hg]
  · simp only [tickWar]
    rw [if_neg hg]
    have hsfe : startFire now (normalizeStart cfg now w) =
        (decide (w.ended_at = 0) && decide ((normalizeStart cfg now w).start_at ≤ now)
          && ! w.start_notified) := by
      unfold startFire
      rw [hnf.1, hnf.2.2.2.1]
      by_cases h1 : w.ended_at = 0 <;>
        by_cases h2 : (normalizeStart cfg now w).start_at ≤ now <;>
        cases h3 : w.start_notified <;> simp [h1, h2, h3]
    by_cases hsf : startFire now (normalizeStart cfg now w)
    · rw [tickStart_pos hsf]
      rw [hsfe] at hsf
      simp only [Bool.and_eq_true, Bool.not_eq_eq_eq_not, Bool.not_true,
        decide_eq_true_eq] at hsf
      simp [isStartNote, hg, hsf.1.1, hsf.1.2, hsf.2]
    · rw [tickStart_neg hsf]
      rw [hsfe] at hsf
      simp only [Bool.and_eq_true, Bool.not_eq_eq_eq_not, Bool.not_true,
        decide_eq_true_eq, not_and] at hsf
      constructor
      · intro hany
        exfalso
        by_cases hcf : cdFire now (tickSelfTest cfg now (normalizeStart cfg now w))
        · rw [tickCooldown_pos hcf] at hany
          simp [isStartNote] at hany
        · rw [tickCooldown_neg hcf] at hany
          simp at hany
      · intro hh
        exact absurd (hsf ⟨hh.2.1, hh.2.2.1⟩) (by simp [hh.2.2.2])


/-- A set start guard survives the tick and suppresses the emission. -/
theorem tickWar_start_flag_true (cfg : Config) (now : Int) {w : WarRecord}
    (h : w.start_notified = true) :
    (tickWar cfg now w).war.start_notified = true ∧ emitsStart cfg now w = false := by
  constructor
  · by_cases hg : w.war_id = 0 ∨ w.tribe_a = 0 ∨ w.tribe_b = 0
    · rw [tickWar_of_guard cfg now hg]
      exact h
    · simp only [tickWar]
      rw [if_neg hg]
      have h2 : (normalizeStart cfg now w).start_notified = true := by
        rw [(normalizeStart_fields cfg now w).2.2.2.1]
        exact h
      have hsf : ¬ startFire now (normalizeStart cfg now w) := by
        unfold startFire
        simp [h2]
      rw [tickStart_neg hsf]
      rw [(tickCooldown_fields now _).2.2.2.2.2.2.2,
        (tickSelfTest_fields cfg now _).2.2.2.2]
      exact h2
  · cases he : emitsStart cfg now w
    · rfl
    · rcases (emitsStart_iff cfg now w).mp he with ⟨-, -, -, hflag⟩
      rw [h] at hflag
      cases hflag

/-- An emitted start pair sets the start guard on the resulting record. -/
theorem tickWar_start_flag_set (cfg : Config) (now : Int) {w : WarRecord}
    (h : emitsStart cfg now w = true) :
    (tickWar cfg now w).war.start_notified = true := by
  rcases (emitsStart_iff cfg now w).mp h with ⟨hg, hend, hle, hflag⟩
  simp only [tickWar]
  rw [if_neg hg]
  have hsf : startFire now (normalizeStart cfg now w) := by
    unfold startFire
    rw [(normalizeStart_fields cfg now w).1, (normalizeStart_fields cfg now w).2.2.2.1]
    simp [hend, hle, hflag]
  rw [tickStart_pos hsf]
  rw [(tickCooldown_fields now _).2.2.2.2.2.2.2,
    (tickSelfTest_fields cfg now _).2.2.2.2]

/-- A set cooldown guard on an ended record survives the tick and
suppresses the emission. -/
theorem tickWar_cd_flag_true (cfg : Config) (now : Int) {w : WarRecord}
    (hend : w.ended_at ≠ 0) (h : w.cooldown_notified = true) :
    (tickWar cfg now w).war.ended_at ≠ 0 ∧
      (tickWar cfg now w).war.cooldown_notified = true ∧
      emitsCd cfg now w = false := by
  by_cases hg : w.war_id = 0 ∨ w.tribe_a = 0 ∨ w.tribe_b = 0
  · rw [tickWar_of_guard cfg now hg]
    refine ⟨hend, h, ?_⟩
    unfold emitsCd
    rw [tickWar_of_guard cfg now hg]
    rfl
  · have heq := tickWar_of_ended cfg now hend hg
    have hnf := normalizeStart_fields cfg now w
    have hcf : ¬ cdFire now (normalizeStart cfg now w) := by
      unfold cdFire
      rw [hnf.2.2.2.2.1]
      simp [h]
    refine ⟨?_, ?_, ?_⟩
    · rw [heq]
      dsimp only
      rw [tickCooldown_neg hcf]
      rw [hnf.1]
      exact hend
    · rw [heq]
      dsimp only
      rw [tickCooldown_neg hcf]
      rw [hnf.2.2.2.2.1]
      exact h
    · unfold emitsCd
      rw [heq]
      dsimp only
      rw [tickCooldown_neg hcf]
      rfl

/-- An emitted cooldown pair leaves the record ended with the cooldown
guard set. -/
theorem tickWar_cd_set (cfg : Config) (now : Int) {w : WarRecord}
    (h : emitsCd cfg now w = true) :
    (tickWar cfg now w).war.ended_at ≠ 0 ∧
      (tickWar cfg now w).war.cooldown_notified = true := by
  by_cases hg : w.war_id = 0 ∨ w.tribe_a = 0 ∨ w.tribe_b = 0
  · unfold emitsCd at h
    rw [tickWar_of_guard cfg now hg] at h
    cases h
  · unfold emitsCd at h
    simp only [tickWar] at h ⊢
    rw [if_neg hg] at h ⊢
    by_cases hcf : cdFire now
        (tickSelfTest cfg now (tickStart now (normalizeStart cfg now w)).1)
    · rw [tickCooldown_pos hcf]
      have hcf2 := hcf
      unfold cdFire at hcf2
      simp only [decide_eq_true_eq, Bool.and_eq_true, decide_eq_true_eq] at hcf2
      exact ⟨by simpa using hcf2.1, rfl⟩
    · rw [tickCooldown_neg hcf] at h
      by_cases hsf : startFire now (normalizeStart cfg now w)
      · rw [tickStart_pos hsf] at h
        simp [isCdNote] at h
      · rw [tickStart_neg hsf] at h
        simp at h

theorem runTicks_none (cfg : Config) (ts : List Int) :
    runTicks cfg ts none = (none, 0, 0) := by
  induction ts with
  | nil => rfl
  | cons t ts ih => simpa [runTicks] using ih

theorem runTicks_start_zero (cfg : Config) :
    ∀ (ts : List Int) (w : WarRecord), w.start_notified = true →
      (runTicks cfg ts (some w)).2.1 = 0 := by
  intro ts
  induction ts with
  | nil => intro w _; rfl
  | cons t ts ih =>
    intro w h
    obtain ⟨hflag, hemit⟩ := tickWar_start_flag_true cfg t h
    simp only [runTicks]
    rw [show (tickWar cfg t w).notes.any isStartNote = false from hemit]
    simp only [Bool.false_eq_true, if_false, Nat.zero_add]
    by_cases hrem : (tickWar cfg t w).remove
    · rw [if_pos hrem, runTicks_none]
    · rw [if_neg hrem]
      exact ih _ hflag

theorem runTicks_start_le_one (cfg : Config) :
    ∀ (ts : List Int) (w : WarRecord), (runTicks cfg ts (some w)).2.1 ≤ 1 := by
  intro ts
  induction ts with
  | nil => intro w; exact Nat.zero_le 1
  | cons t ts ih =>
    intro w
    simp only [runTicks]
    cases he : (tickWar cfg t w).notes.any isStartNote
    · simp only [Bool.false_eq_true, if_false, Nat.zero_add]
      by_cases hrem : (tickWar cfg t w).remove
      · rw [if_pos hrem, runTicks_none]
        exact Nat.zero_le 1
      · rw [if_neg hrem]
        exact ih _
    · simp only [if_true]
      have hflag : (tickWar cfg t w).war.start_notified = true :=
        tickWar_start_flag_set cfg t he
      by_cases hrem : (tickWar cfg t w).remove
      · rw [if_pos hrem, runTicks_none]
        simp
      · rw [if_neg hrem, runTicks_start_zero cfg ts _ hflag]

theorem runTicks_cd_zero (cfg : Config) :
    ∀ (ts : List Int) (w : WarRecord), w.ended_at ≠ 0 → w.cooldown_notified = true →
      (runTicks cfg ts (some w)).2.2 = 0 := by
  intro ts
  induction ts with
  | nil => intro w _ _; rfl
  | cons t ts ih =>
    intro w hend h
    obtain ⟨hend2, hflag, hemit⟩ := tickWar_cd_flag_true cfg t hend h
    simp only [runTicks]
    rw [show (tickWar cfg t w).notes.any isCdNote = false from hemit]
    simp only [Bool.false_eq_true, if_false, Nat.zero_add]
    by_cases hrem : (tickWar cfg t w).remove
    · rw [if_pos hrem, runTicks_none]
    · rw [if_neg hrem]
      exact ih _ hend2 hflag

theorem runTicks_cd_le_one (cfg : Config) :
    ∀ (ts : List Int) (w : WarRecord), (runTicks cfg ts (some w)).2.2 ≤ 1 := by
  intro ts
  induction ts with
  | nil => intro w; exact Nat.zero_le 1
  | cons t ts ih =>
    intro w
    simp only [runTicks]
    cases he : (tickWar cfg t w).notes.any isCdNote
    · simp only [Bool.false_eq_true, if_false, Nat.zero_add]
      by_cases hrem : (tickWar cfg t w).remove
      · rw [if_pos hrem, runTicks_none]
        exact Nat.zero_le 1
      · rw [if_neg hrem]
        exact ih _
    · simp only [if_true]
      obtain ⟨hend2, hflag⟩ := tickWar_cd_set cfg t he
      by_cases hrem : (tickWar cfg t w).remove
      · rw [if_pos hrem, runTicks_none]
        simp
      · rw [if_neg hrem, runTicks_cd_zero cfg ts _ hend2 hflag]

/-! ### Claim C5 (confirmed) -/

/-- Claim C5: over any sequence of ticks on a record (including
nondecreasing clocks, as the claim states, but in fact over arbitrary
clock sequences), the war-started pair is emitted by at most one tick and
the cooldown-ended pair by at most one tick; a tick emits the start pair
exactly when the record passes the malformed-record guard, is not ended,
its normalized start time has been reached and the start guard flag is
still clear (so the first qualifying tick emits and sets the guard); and
an emitted cooldown pair always leaves the ended record with its guard
set, so no later tick repeats either event. -/
theorem C5_notify_once (cfg : Config) (w : WarRecord) (ts : List Int) :
    (runTicks cfg ts (some w)).2.1 ≤ 1 ∧
    (runTicks cfg ts (some w)).2.2 ≤ 1 ∧
    (∀ now, emitsStart cfg now w = true ↔
      (¬ (w.war_id = 0 ∨ w.tribe_a = 0 ∨ w.tribe_b = 0) ∧
        w.ended_at = 0 ∧ (normalizeStart cfg now w).start_at ≤ now ∧
        w.start_notified = false)) ∧
    (∀ now, emitsStart cfg now w = true →
      (tickWar cfg now w).war.start_notified = true) ∧
    (∀ now, emitsCd cfg now w = true →
      (tickWar cfg now w).war.ended_at ≠ 0 ∧
      (tickWar cfg now w).war.cooldown_notified = true) :=
  ⟨runTicks_start_le_one cfg ts w, runTicks_cd_le_one cfg ts w,
   fun now => emitsStart_iff cfg now w,
   fun now h => tickWar_start_flag_set cfg now h,
   fun now h => tickWar_cd_set cfg now h⟩

/-- Witness for C5 on the declared scenario record: ticking at the start
time and again a second later emits the start pair exactly once, and the
single-tick emission applies at the start time. -/
theorem C5_witness :
    (runTicks scenarioCfg [3700, 3701]
      (some ⟨1, 10, 20, 100, 3700, 0, 0, 0, false, false, false, false⟩)).2.1 ≤ 1 ∧
    (runTicks scenarioCfg [3700, 3701]
      (some ⟨1, 10, 20, 100, 3700, 0, 0, 0, false, false, false, false⟩)).2.1 = 1 ∧
    emitsStart scenarioCfg 3700
      ⟨1, 10, 20, 100, 3700, 0, 0, 0, false, false, false, false⟩ = true :=
  ⟨(C5_notify_once scenarioCfg _ [3700, 3701]).1, by decide,
   ((C5_notify_once scenarioCfg
      ⟨1, 10, 20, 100, 3700, 0, 0, 0, false, false, false, false⟩ []).2.2.1
      3700).mpr (by decide)⟩

/-! ### Claim C4 (confirmed) -/

/-- Claim C4: on the war-arbitration path (server ready, structure not
excluded, both tribes known, no abandoned-structure window, game mode
available), same-party damage is allowed with multiplier 1; damage
between parties placed on opposing sides of some war that is Active now —
directly or through the alliance predicate — is allowed with the
configured damage multiplier; and without such a war the damage is denied
with the multiplier left at 1. -/
theorem C4_damage_arbiter (env : DamageEnv) (cfg : Config) (s : Store)
    (target_raw attacker now : Int)
    (hready : env.serverReady = true)
    (hexcl : env.excludedStructure = false)
    (hgm : env.gameModeAvailable = true)
    (htgt : CanonicalTribeId target_raw ≠ 0) (hatk : attacker ≠ 0)
    (haband : env.abandoned (CanonicalTribeId target_raw) now = none) :
    (CanonicalTribeId target_raw = attacker →
      IsStructureDamageAllowed env cfg s target_raw attacker now = (true, 1)) ∧
    (CanonicalTribeId target_raw ≠ attacker →
      (∃ war ∈ GetActiveWarsSnapshot s now,
        opposingSides env attacker (CanonicalTribeId target_raw) war = true) →
      IsStructureDamageAllowed env cfg s target_raw attacker now =
        (true, cfg.structure_damage_multiplier)) ∧
    (CanonicalTribeId target_raw ≠ attacker →
      (∀ war ∈ GetActiveWarsSnapshot s now,
        opposingSides env attacker (CanonicalTribeId target_raw) war = false) →
      IsStructureDamageAllowed env cfg s target_raw attacker now = (false, 1)) := by
  simp only [IsStructureDamageAllowed]
  rw [if_neg (by simp [hready]), if_neg (by simp [hexcl]),
    if_neg (show ¬ (CanonicalTribeId target_raw = 0 ∨ attacker = 0) by tauto)]
  refine ⟨fun hsame => by rw [if_pos hsame], fun hne hex => ?_, fun hne hall => ?_⟩
  · rw [if_neg hne, haband]
    rw [if_neg (by simp [hgm])]
    obtain ⟨war, hmem, hopp⟩ := hex
    cases hf : (GetActiveWarsSnapshot s now).find?
        (opposingSides env attacker (CanonicalTribeId target_raw)) with
    | none =>
      exfalso
      exact absurd hopp (by simpa using List.find?_eq_none.mp hf war hmem)
    | some x => rfl
  · rw [if_neg hne, haband]
    rw [if_neg (by simp [hgm])]
    rw [List.find?_eq_none.mpr (fun x hx => by simp [hall x hx])]

/-- The damage-path oracle environment for the concrete scenario: server
ready, nothing excluded, no abandoned windows, game mode present, no
alliances. -/
def scenarioDamageEnv : DamageEnv :=
  { serverReady := true
    excludedStructure := false
    abandoned := fun _ _ => none
    gameModeAvailable := true
    allied := fun _ _ => false }

/-- Witness for C4 with the declared war active at its start time:
friendly fire within tribe 10 is allowed at multiplier 1, the war
opponents damage each other at the configured multiplier, and a third
tribe is denied. -/
theorem C4_witness :
    IsStructureDamageAllowed scenarioDamageEnv scenarioCfg declaredStore
      10 10 3700 = (true, 1) ∧
    IsStructureDamageAllowed scenarioDamageEnv scenarioCfg declaredStore
      20 10 3700 = (true, scenarioCfg.structure_damage_multiplier) ∧
    IsStructureDamageAllowed scenarioDamageEnv scenarioCfg declaredStore
      20 30 3700 = (false, 1) :=
  ⟨(C4_damage_arbiter scenarioDamageEnv scenarioCfg declaredStore 10 10 3700
      rfl rfl rfl (by decide) (by decide) rfl).1 (by decide),
   (C4_damage_arbiter scenarioDamageEnv scenarioCfg declaredStore 20 10 3700
      rfl rfl rfl (by decide) (by decide) rfl).2.1 (by decide)
      ⟨⟨1, 10, 20, 100, 3700, 0, 0, 0, false, false, false, false⟩,
        by decide, by decide⟩,
   (C4_damage_arbiter scenarioDamageEnv scenarioCfg declaredStore 20 30 3700
      rfl rfl rfl (by decide) (by decide) rfl).2.2 (by decide) (by decide)⟩

/-! ### Claim C9 (confirmed) -/

/-- A disabled tick driver returns immediately with no notes and an
unchanged system state, whatever the clock and fault oracle say. -/
theorem TickInvoke_disabled (cfg : Config) {sys : Sys}
    (h : sys.auto_timers_enabled = false) (now : Int)
    (fault : Option (Store × List Note)) :
    TickInvoke cfg sys now fault = (sys, []) := by
  unfold TickInvoke
  rw [if_pos h]

/-- Claim C9: a tick invocation whose body faults (modelled by the fault
oracle, with arbitrary partial effects on the store) leaves the permanent
ticking-disabled flag cleared to false, and from any state with the flag
false, every later sequence of tick invocations — whatever their clocks
and fault oracles — returns immediately: the final state is unchanged and
no notification is ever emitted again. -/
theorem C9_fault_disables_ticks (cfg : Config) (sys : Sys) (now : Int)
    (st : Store) (notes : List Note)
    (henabled : sys.auto_timers_enabled = true) (hready : sys.plugin_ready = true) :
    (TickInvoke cfg sys now (some (st, notes))).1.auto_timers_enabled = false ∧
    (∀ sys2 : Sys, sys2.auto_timers_enabled = false →
      ∀ invs : List (Int × Option (Store × List Note)),
        TickRun cfg sys2 invs = (sys2, [])) := by
  constructor
  · unfold TickInvoke
    rw [if_neg (by simp [henabled]), if_neg (by simp [hready])]
  · intro sys2 hdis invs
    induction invs with
    | nil => rfl
    | cons i rest ih =>
      simp only [TickRun]
      rw [TickInvoke_disabled cfg hdis i.1 i.2, ih]
      rfl

/-- Witness for C9: a fault at clock 100 on a healthy system over the
declared store disables ticking, and two subsequent invocations (one of
them normal, one faulting) change nothing and emit nothing. -/
theorem C9_witness :
    (TickInvoke scenarioCfg ⟨declaredStore, true, true⟩ 100
      (some (emptyStore, []))).1.auto_timers_enabled = false ∧
    TickRun scenarioCfg ⟨emptyStore, false, true⟩
      [(200, none), (300, some (declaredStore, []))] =
      (⟨emptyStore, false, true⟩, []) :=
  ⟨(C9_fault_disables_ticks scenarioCfg ⟨declaredStore, true, true⟩ 100
      emptyStore [] rfl rfl).1,
   (C9_fault_disables_ticks scenarioCfg ⟨declaredStore, true, true⟩ 100
      emptyStore [] rfl rfl).2 ⟨emptyStore, false, true⟩ rfl
      [(200, none), (300, some (declaredStore, []))]⟩

/-! ### Claim C10 (confirmed) -/

/-- Claim C10: the tick queues a record for removal only when, after this
tick's own mutations, it is ended with both cooldown ends strictly
positive and both reached by now; consequently a record with endedAt
non-zero but a non-positive cooldown-end field is never removed by any
sequence of ticks — it survives every run with its ended state and
cooldown ends intact — even though its phase is None at any time past
both cooldown ends (so the phase-checked lookup never returns it), and
every saved snapshot still contains every stored record. -/
theorem C10_cleanup_guard (cfg : Config) (now : Int) (w : WarRecord) :
    ((tickWar cfg now w).remove = true →
      (tickWar cfg now w).war.ended_at ≠ 0 ∧
      0 < (tickWar cfg now w).war.cooldown_end_a ∧
      0 < (tickWar cfg now w).war.cooldown_end_b ∧
      (tickWar cfg now w).war.cooldown_end_a ≤ now ∧
      (tickWar cfg now w).war.cooldown_end_b ≤ now) ∧
    (w.ended_at ≠ 0 → (w.cooldown_end_a ≤ 0 ∨ w.cooldown_end_b ≤ 0) →
      ∀ ts : List Int, ∃ w2,
        (runTicks cfg ts (some w)).1 = some w2 ∧
        w2.ended_at = w.ended_at ∧
        w2.cooldown_end_a = w.cooldown_end_a ∧
        w2.cooldown_end_b = w.cooldown_end_b) ∧
    (w.ended_at ≠ 0 → w.cooldown_end_a ≤ now → w.cooldown_end_b ≤ now →
      GetPhase w now = WarPhase.None) ∧
    (∀ (s : Store) (p : Int) (v : WarRecord),
      GetWarForTribeCopy s p now = some v → GetPhase v now ≠ WarPhase.None) ∧
    (∀ s : Store, w ∈ s.wars → w ∈ (SaveData s).wars) := by
  refine ⟨?_, ?_, ?_, ?_, fun s hw => hw⟩
  · intro hrem
    by_cases hg : w.war_id = 0 ∨ w.tribe_a = 0 ∨ w.tribe_b = 0
    · rw [tickWar_of_guard cfg now hg] at hrem
      cases hrem
    · have hrem2 : tickRemove now
          (tickSelfTest cfg now (tickStart now (normalizeStart cfg now w)).1) = true := by
        simp only [tickWar] at hrem
        rw [if_neg hg] at hrem
        exact hrem
      unfold tickRemove at hrem2
      simp only [Bool.and_eq_true, decide_eq_true_eq] at hrem2
      simp only [tickWar]
      rw [if_neg hg]
      have hcd := tickCooldown_fields now
        (tickSelfTest cfg now (tickStart now (normalizeStart cfg now w)).1)
      rw [hcd.2.2.2.1, hcd.2.2.2.2.1, hcd.2.2.2.2.2.1]
      exact ⟨by simpa using hrem2.1, hrem2.2.1, hrem2.2.2.1, hrem2.2.2.2.1,
        hrem2.2.2.2.2⟩
  · intro hend hnp ts
    induction ts generalizing w with
    | nil => exact ⟨w, rfl, rfl, rfl, rfl⟩
    | cons t ts ih =>
      by_cases hg : w.war_id = 0 ∨ w.tribe_a = 0 ∨ w.tribe_b = 0
      · have hstep : tickWar cfg t w = ⟨w, [], false, false⟩ :=
          tickWar_of_guard cfg t hg
        simp only [runTicks, hstep]
        exact ih w hend hnp
      · have heq := tickWar_of_ended cfg t hend hg
        have hnf := normalizeStart_fields cfg t w
        have hrm : (tickWar cfg t w).remove = false := by
          rw [heq]
          unfold tickRemove
          rcases hnp with hpa | hpb
          · simp [hnf.2.1, show ¬ (0 < w.cooldown_end_a) by omega]
          · simp [hnf.2.2.1, show ¬ (0 < w.cooldown_end_b) by omega]
        have hfields := tickWar_fields_of_ended cfg t (w := w) hend
        simp only [runTicks]
        rw [hrm]
        simp only [Bool.false_eq_true, if_false]
        obtain ⟨w2, hrun, he2, ha2, hb2⟩ := ih (tickWar cfg t w).war
          (by rw [hfields.1]; exact hend)
          (by rw [hfields.2.1, hfields.2.2]; exact hnp)
        exact ⟨w2, hrun, by rw [he2, hfields.1], by rw [ha2, hfields.2.1],
          by rw [hb2, hfields.2.2]⟩
  · intro hend ha hb
    unfold GetPhase
    by_cases hid : w.war_id = 0
    · rw [if_pos hid]
    · rw [if_neg hid, if_neg hend, if_neg (by omega)]
  · intro s p v h
    unfold GetWarForTribeCopy at h
    cases hlk : GetWarForTribeLocked s (CanonicalTribeId p) with
    | none => rw [hlk] at h; cases h
    | some war =>
      rw [hlk] at h
      dsimp only at h
      split_ifs at h with hph
      rwa [← Option.some.inj h]

/-- Witness for C10: a malformed ended record with zero cooldown ends is
already phase-None at its end time yet survives a three-tick run
unchanged, and removal at a concrete removing tick only fires with both
cooldown ends positive and past. -/
theorem C10_witness :
    (∃ w2, (runTicks scenarioCfg [300, 400, 500]
        (some ⟨1, 10, 20, 100, 3700, 200, 0, 0, false, false, false, false⟩)).1 =
          some w2 ∧
      w2.ended_at = 200 ∧ w2.cooldown_end_a = 0 ∧ w2.cooldown_end_b = 0) ∧
    GetPhase ⟨1, 10, 20, 100, 3700, 200, 0, 0, false, false, false, false⟩ 300 =
      WarPhase.None := by
  constructor
  · obtain ⟨w2, h1, h2, h3, h4⟩ := (C10_cleanup_guard scenarioCfg 300
      ⟨1, 10, 20, 100, 3700, 200, 0, 0, false, false, false, false⟩).2.1
      (by decide) (by decide) [300, 400, 500]
    exact ⟨w2, h1, by rw [h2], by rw [h3], by rw [h4]⟩
  · exact (C10_cleanup_guard scenarioCfg 300
      ⟨1, 10, 20, 100, 3700, 200, 0, 0, false, false, false, false⟩).2.2.1
      (by decide) (by decide) (by decide)

end TribeWar
